import Mathlib

/-!
Shallow embedding of the AM-finance-recon matching and balance-validation
engine (src/modules/balance_calculator.py, src/modules/entity_matcher.py,
src/app.py, src/config.py), together with theorems checking the
specification's claims about it.

Monetary amounts are embedded as rational numbers; the fuzzywuzzy
string-similarity library (an external dependency, not part of the
repository) is modelled as an explicit function parameter `fz` returning a
score on the 0..100 scale, exactly as `fuzz.token_sort_ratio` does.
-/

/-- One transaction row of the processed DataFrame
(columns added by FileHandler.process_transactions). -/
structure Transaction where
  originalIndex : ℕ
  amount : ℚ
  absAmount : ℚ
  description : String
  transactionType : String
  matchStatus : String
  matchGroupId : Option String
  matchConfidence : Option ℚ
deriving DecidableEq

/-- The matching-relevant part of config.Config. -/
structure MatcherConfig where
  balanceTolerance : ℚ
  fuzzyThreshold : ℚ
  keywordMinLength : ℕ
  stopwords : List String
deriving DecidableEq

/-- The concrete values from config.py. -/
def defaultConfig : MatcherConfig :=
  { balanceTolerance := 1/100
    fuzzyThreshold := 4/5
    keywordMinLength := 3
    stopwords := ["to", "from", "for", "the", "and", "or", "in", "at", "by",
      "invoice", "payment", "receipt", "transaction", "bill", "ref"] }

/-- A match dictionary as built by the matching stages and app.confirm_match:
match_type, confidence, revenue, expenses, balance. The revenue key is
optional because BalanceCalculator.validate_match treats a missing revenue
as a validation failure. -/
structure MatchGroup where
  matchType : String
  confidence : ℚ
  revenue : Option Transaction
  expenses : List Transaction
  balance : ℚ
deriving DecidableEq

/-! ### BalanceCalculator (src/modules/balance_calculator.py) -/

/-- BalanceCalculator.calculate_match_balance: revenue amount plus the sum of
the (signed) expense amounts; a missing revenue contributes 0. -/
def calculate_match_balance (m : MatchGroup) : ℚ :=
  (match m.revenue with
   | some r => r.amount
   | none => 0) + (m.expenses.map (fun e => e.amount)).sum

/-- BalanceCalculator.is_balanced: absolute balance strictly below the
configured tolerance. -/
def is_balanced (cfg : MatcherConfig) (m : MatchGroup) : Bool :=
  decide (|calculate_match_balance m| < cfg.balanceTolerance)

/-- The reason strings produced by BalanceCalculator.validate_match,
abstracted into an inductive; `unbalanced` carries the numeric residual
that the source interpolates into its message. -/
inductive ValidationMessage where
  | noRevenue
  | noExpenses
  | unbalanced (residual : ℚ)
  | valid
deriving DecidableEq

/-- BalanceCalculator.validate_match: missing revenue, then missing
expenses, then balance, in that order. -/
def validate_match (cfg : MatcherConfig) (m : MatchGroup) : Bool × ValidationMessage :=
  match m.revenue with
  | none => (false, ValidationMessage.noRevenue)
  | some _ =>
    if m.expenses = [] then (false, ValidationMessage.noExpenses)
    else if ! is_balanced cfg m then
      (false, ValidationMessage.unbalanced (calculate_match_balance m))
    else (true, ValidationMessage.valid)

/-! ### The subset-sum DP solver
(BalanceCalculator.find_expense_combinations_dp) -/

/-- A record carrying only an amount key, the shape
find_expense_combinations_dp reads from its expense dictionaries. -/
structure ExpenseRec where
  amount : ℚ
deriving DecidableEq

/-- Python's round() on a rational value: round half to even
(amounts are converted to cents with int(round(x * 100))). -/
def pyRound (q : ℚ) : ℤ :=
  let f := q.floor
  let frac := q - f
  if frac < 1/2 then f
  else if 1/2 < frac then f + 1
  else if f % 2 = 0 then f else f + 1

/-- Integer cents of a (nonnegative) currency value, as computed by
int(round(abs(amount) * 100)). -/
def centsOf (e : ExpenseRec) : ℕ := (pyRound (|e.amount| * 100)).toNat

/-- The reachability predicate computed by the DP table: dp[i][j] holds iff
some subset of the first i expense cent values sums to j. The list passed
here is the reversed prefix, so that the head is the expense the source's
row i was filled from. -/
def dpReach (cents : α → ℕ) : List α → ℕ → Bool
  | [], j => j == 0
  | x :: rest, j =>
    dpReach cents rest j || (decide (cents x ≤ j) && dpReach cents rest (j - cents x))

/-- The backtracking loop of find_expense_combinations_dp, walking the items
from last to first (the input list here is the reversed expense list):
if excluding the current item still reaches j, exclude it, otherwise take
it and reduce j; stop when j reaches 0. -/
def dpBacktrack (cents : α → ℕ) : List α → ℕ → List α
  | [], _ => []
  | x :: rest, j =>
    if j = 0 then []
    else if dpReach cents rest j then dpBacktrack cents rest j
    else x :: dpBacktrack cents rest (j - cents x)

/-- BalanceCalculator.find_expense_combinations_dp: convert the target and
the absolute expense amounts to integer cents, test reachability, and on
success backtrack to extract one subset; an empty backtracking result is
reported as no solution. -/
def find_expense_combinations_dp (target : ℚ) (expenses : List ExpenseRec) :
    Option (List ExpenseRec) :=
  let targetCents := (pyRound (target * 100)).toNat
  if ! dpReach centsOf expenses.reverse targetCents then none
  else
    let result := dpBacktrack centsOf expenses.reverse targetCents
    if result = [] then none else some result

/-! ### EntityMatcher primitives (src/modules/entity_matcher.py) -/

/-- str.lower(), modelled character by character (ASCII model of the
Python semantics). -/
def lowerStr (s : String) : String := ⟨s.data.map Char.toLower⟩

/-- str.strip(): remove leading and trailing whitespace. -/
def trimStr (s : String) : String :=
  ⟨((s.data.dropWhile Char.isWhitespace).reverse.dropWhile
      Char.isWhitespace).reverse⟩

/-- The accumulator loop behind str.split() with no separator: split on
whitespace runs, discarding empty pieces. -/
def splitWsAux : List Char → List Char → List String
  | [], acc => if acc.isEmpty then [] else [⟨acc.reverse⟩]
  | c :: cs, acc =>
    if c.isWhitespace then
      if acc.isEmpty then splitWsAux cs []
      else ⟨acc.reverse⟩ :: splitWsAux cs []
    else splitWsAux cs (c :: acc)

/-- str.split() with no separator. -/
def splitWs (s : String) : List String := splitWsAux s.data []

/-- The character substitution performed by re.sub applied with the
pattern matching every character that is neither a word character nor
whitespace: such characters become spaces (ASCII model of the regex
character classes). -/
def cleanChar (c : Char) : Char :=
  if c.isAlphanum || c = '_' || c.isWhitespace then c else ' '

/-- EntityMatcher.extract_keywords: lowercase, replace punctuation with
spaces, split on whitespace, drop stopwords and words shorter than
keyword_min_length, collect into a set. -/
def extract_keywords (cfg : MatcherConfig) (text : String) : Finset String :=
  let lowered := lowerStr text
  let cleaned : String := ⟨lowered.data.map cleanChar⟩
  let words := splitWs cleaned
  (words.filter (fun w =>
    decide (w ∉ cfg.stopwords) && decide (cfg.keywordMinLength ≤ w.length))).toFinset

/-- EntityMatcher.calculate_similarity: the external
fuzz.token_sort_ratio score (0..100) rescaled to 0..1. -/
def calculate_similarity (fz : String → String → ℚ) (t1 t2 : String) : ℚ :=
  fz t1 t2 / 100

/-- An entry of the potential_expenses lists built by keyword_match and
fuzzy_match: an expense row together with the keyword_score value that
_find_best_expense_combination sorts by and averages into the confidence. -/
structure ScoredExpense where
  expense : Transaction
  score : ℚ
deriving DecidableEq

/-- Python's stable list.sort with a numeric key and reverse=True,
realised as an insertion sort that puts an element before the first
existing element whose key is not larger. -/
def sortByDesc (key : α → ℚ) (l : List α) : List α :=
  l.insertionSort (fun a b => key b ≤ key a)

/-- itertools.combinations: all k-element sublists of l, in the generation
order of the library (combinations containing earlier elements first). -/
def combosOf : ℕ → List α → List (List α)
  | 0, _ => [[]]
  | _ + 1, [] => []
  | k + 1, x :: xs => (combosOf k xs).map (fun c => x :: c) ++ combosOf (k + 1) xs

/-- The list of combination sizes attempted by
_find_best_expense_combination: range(2, min(6, len(potential) + 1)). -/
def comboSizes (n : ℕ) : List ℕ := List.range' 2 (min 6 (n + 1) - 2)

/-- The flat list of candidate combinations, in generation order: sizes in
increasing order, and for each size the itertools order over the first 10
sorted candidates. -/
def comboList (sorted : List ScoredExpense) (n : ℕ) : List (List ScoredExpense) :=
  (comboSizes n).flatMap (fun k => combosOf k (sorted.take 10))

/-- EntityMatcher._find_best_expense_combination: sort candidates by score
descending, return the first single candidate within tolerance of the
revenue amount, otherwise the first qualifying combination of size 2..5
drawn from the top 10, otherwise no solution. -/
def find_best_expense_combination (cfg : MatcherConfig) (revenue : Transaction)
    (potentialExpenses : List ScoredExpense) : Option MatchGroup :=
  let revenueAmount := revenue.absAmount
  let tolerance := cfg.balanceTolerance
  let sorted := sortByDesc (fun pe => pe.score) potentialExpenses
  match sorted.find? (fun pe => decide (|pe.expense.absAmount - revenueAmount| < tolerance)) with
  | some pe => some
      { matchType := "fuzzy_single"
        confidence := pe.score
        revenue := some revenue
        expenses := [pe.expense]
        balance := revenueAmount - pe.expense.absAmount }
  | none =>
    match (comboList sorted potentialExpenses.length).find?
        (fun combo =>
          decide (|(combo.map (fun pe => pe.expense.absAmount)).sum - revenueAmount| < tolerance)) with
    | some combo => some
        { matchType := "fuzzy_multiple_" ++ toString combo.length
          confidence := (combo.map (fun pe => pe.score)).sum / (combo.length : ℚ)
          revenue := some revenue
          expenses := combo.map (fun pe => pe.expense)
          balance := revenueAmount - (combo.map (fun pe => pe.expense.absAmount)).sum }
    | none => none

/-! ### The three cascade stages. Each stage iterates the revenue pool in
order, keeping sets of consumed expense and revenue indices, and finally
filters the consumed transactions out of both pools. -/

/-- The loop shared by exact_match, keyword_match and fuzzy_match: for each
revenue in order, run the stage's candidate selection against the
not-yet-consumed expenses; on success record the group and mark its
expense rows and the revenue row as consumed. -/
def stageGo (pick : Transaction → List Transaction → Option MatchGroup)
    (expenses : List Transaction) :
    List Transaction → List MatchGroup → Finset ℕ → Finset ℕ →
    List MatchGroup × Finset ℕ × Finset ℕ
  | [], gs, ce, cr => (gs, ce, cr)
  | r :: rs, gs, ce, cr =>
    match pick r (expenses.filter (fun e => decide (e.originalIndex ∉ ce))) with
    | some g =>
      stageGo pick expenses rs (gs ++ [g])
        (ce ∪ (g.expenses.map (fun e => e.originalIndex)).toFinset)
        (insert r.originalIndex cr)
    | none => stageGo pick expenses rs gs ce cr

/-- Run one cascade stage: the loop above followed by the removal of the
matched transactions from both pools. -/
def runStage (pick : Transaction → List Transaction → Option MatchGroup)
    (expenses revenues : List Transaction) :
    List MatchGroup × List Transaction × List Transaction :=
  let res := stageGo pick expenses revenues [] ∅ ∅
  (res.1,
   expenses.filter (fun e => decide (e.originalIndex ∉ res.2.1)),
   revenues.filter (fun r => decide (r.originalIndex ∉ res.2.2)))

/-- The normalisation str(description).lower().strip() applied by the
exact stage. -/
def normDesc (s : String) : String := trimStr (lowerStr s)

/-- The exact-stage acceptance test: absolute amounts within tolerance and
identical normalised descriptions. -/
def exactPred (cfg : MatcherConfig) (r e : Transaction) : Bool :=
  decide (|e.absAmount - r.absAmount| < cfg.balanceTolerance) &&
    decide (normDesc e.description = normDesc r.description)

/-- The per-revenue body of EntityMatcher.exact_match: the first available
expense passing exactPred becomes a one-expense group of kind exact with
confidence 1.0. -/
def exactPick (cfg : MatcherConfig) (r : Transaction) (avail : List Transaction) :
    Option MatchGroup :=
  (avail.find? (fun e => exactPred cfg r e)).map (fun e =>
    { matchType := "exact"
      confidence := 1
      revenue := some r
      expenses := [e]
      balance := r.absAmount - e.absAmount })

/-- EntityMatcher.exact_match. -/
def exact_match (cfg : MatcherConfig) (expenses revenues : List Transaction) :
    List MatchGroup × List Transaction × List Transaction :=
  runStage (exactPick cfg) expenses revenues

/-- The keyword-overlap ranking score: |shared| / max(|revenue keywords|,
|expense keywords|). -/
def keywordOverlapScore (rk ek : Finset String) : ℚ :=
  ((rk ∩ ek).card : ℚ) / (max rk.card ek.card : ℚ)

/-- The per-revenue body of EntityMatcher.keyword_match: skip revenues with
fewer than min_keywords keywords, qualify available expenses sharing at
least min_keywords keywords, and hand the scored candidates to
_find_best_expense_combination. -/
def keywordPick (cfg : MatcherConfig) (minKeywords : ℕ) (r : Transaction)
    (avail : List Transaction) : Option MatchGroup :=
  let rk := extract_keywords cfg r.description
  if rk.card < minKeywords then none
  else
    let potential := avail.filterMap (fun e =>
      let ek := extract_keywords cfg e.description
      if minKeywords ≤ (rk ∩ ek).card then
        some { expense := e, score := keywordOverlapScore rk ek }
      else none)
    if potential.isEmpty then none
    else find_best_expense_combination cfg r potential

/-- EntityMatcher.keyword_match (min_keywords defaults to 2). -/
def keyword_match (cfg : MatcherConfig) (expenses revenues : List Transaction)
    (minKeywords : ℕ := 2) :
    List MatchGroup × List Transaction × List Transaction :=
  runStage (keywordPick cfg minKeywords) expenses revenues

/-- The per-revenue body of EntityMatcher.fuzzy_match: qualify available
expenses whose similarity reaches fuzzy_threshold, score them by that
similarity, and hand them to _find_best_expense_combination. -/
def fuzzyPick (fz : String → String → ℚ) (cfg : MatcherConfig) (r : Transaction)
    (avail : List Transaction) : Option MatchGroup :=
  let potential := avail.filterMap (fun e =>
    let s := calculate_similarity fz r.description e.description
    if cfg.fuzzyThreshold ≤ s then some { expense := e, score := s } else none)
  if potential.isEmpty then none
  else find_best_expense_combination cfg r potential

/-- EntityMatcher.fuzzy_match. -/
def fuzzy_match (fz : String → String → ℚ) (cfg : MatcherConfig)
    (expenses revenues : List Transaction) :
    List MatchGroup × List Transaction × List Transaction :=
  runStage (fuzzyPick fz cfg) expenses revenues

/-- EntityMatcher.auto_match_all: split the pool by transaction type and
run the exact, keyword and fuzzy stages in order, threading the remaining
pools. -/
def auto_match_all (fz : String → String → ℚ) (cfg : MatcherConfig)
    (df : List Transaction) :
    List MatchGroup × List Transaction × List Transaction :=
  let expenses := df.filter (fun t => decide (t.transactionType = "expense"))
  let revenues := df.filter (fun t => decide (t.transactionType = "revenue"))
  let s1 := exact_match cfg expenses revenues
  let s2 := keyword_match cfg s1.2.1 s1.2.2 2
  let s3 := fuzzy_match fz cfg s2.2.1 s2.2.2
  (s1.1 ++ s2.1 ++ s3.1, s3.2.1, s3.2.2)

/-! ### Review-candidate ranker
(EntityMatcher.find_potential_matches, generate_review_items) -/

/-- One scored candidate produced by find_potential_matches. -/
structure PotentialMatch where
  expense : Transaction
  fuzzyScore : ℚ
  keywordScore : ℚ
  amountScore : ℚ
  combinedScore : ℚ
  sharedKeywords : Finset String
deriving DecidableEq

/-- The scoring pass of find_potential_matches over one expense row. -/
def scoreExpense (fz : String → String → ℚ) (cfg : MatcherConfig)
    (revenue : Transaction) (e : Transaction) : PotentialMatch :=
  let revenueKeywords := extract_keywords cfg revenue.description
  let expenseKeywords := extract_keywords cfg e.description
  let fuzzyScore := calculate_similarity fz revenue.description e.description
  let keywordScore :=
    if revenueKeywords ≠ ∅ ∧ expenseKeywords ≠ ∅ then
      keywordOverlapScore revenueKeywords expenseKeywords
    else 0
  let amountDiff := |e.absAmount - revenue.absAmount|
  let amountScore :=
    if 0 < revenue.absAmount then max 0 (1 - amountDiff / revenue.absAmount) else 0
  { expense := e
    fuzzyScore := fuzzyScore
    keywordScore := keywordScore
    amountScore := amountScore
    combinedScore := fuzzyScore * (2/5) + keywordScore * (2/5) + amountScore * (1/5)
    sharedKeywords := revenueKeywords ∩ expenseKeywords }

/-- EntityMatcher.find_potential_matches: score every expense, stable-sort
descending by combined score, keep the first top_n (default 5). -/
def find_potential_matches (fz : String → String → ℚ) (cfg : MatcherConfig)
    (revenue : Transaction) (expenses : List Transaction) (topN : ℕ := 5) :
    List PotentialMatch :=
  (sortByDesc (fun p => p.combinedScore)
    (expenses.map (scoreExpense fz cfg revenue))).take topN

/-- One entry of the review queue built by generate_review_items. -/
structure ReviewItem where
  revenue : Transaction
  potentialExpenses : List PotentialMatch
  status : String
deriving DecidableEq

/-- EntityMatcher.generate_review_items: one pending_review item per
unmatched revenue, carrying its ranked candidates. -/
def generate_review_items (fz : String → String → ℚ) (cfg : MatcherConfig)
    (unmatchedRevenues unmatchedExpenses : List Transaction) : List ReviewItem :=
  unmatchedRevenues.map (fun r =>
    { revenue := r
      potentialExpenses := find_potential_matches fz cfg r unmatchedExpenses 5
      status := "pending_review" })

/-! ### Session state and the manual-confirmation route
(src/app.py confirm_match, BalanceCalculator.assign_match_groups) -/

/-- BalanceCalculator.calculate_match_group_id: the %04d-padded group id. -/
def matchGroupIdString (i : ℕ) : String :=
  if i < 10 then "MG_000" ++ toString i
  else if i < 100 then "MG_00" ++ toString i
  else if i < 1000 then "MG_0" ++ toString i
  else "MG_" ++ toString i

/-- Stamp status, group id and confidence onto the rows with the given
original index. -/
def stampIndex (gid : String) (conf : ℚ) (tidx : ℕ) (df : List Transaction) :
    List Transaction :=
  df.map (fun t =>
    if t.originalIndex = tidx then
      { t with matchStatus := "matched", matchGroupId := some gid,
               matchConfidence := some conf }
    else t)

/-- The body of BalanceCalculator.assign_match_groups for one enumerated
match: stamp the revenue row, then each expense row. -/
def assignOneGroup (df : List Transaction) (p : ℕ × MatchGroup) : List Transaction :=
  let gid := matchGroupIdString p.1
  let conf := p.2.confidence
  let df1 := match p.2.revenue with
    | some r => stampIndex gid conf r.originalIndex df
    | none => df
  p.2.expenses.foldl (fun acc e => stampIndex gid conf e.originalIndex acc) df1

/-- BalanceCalculator.assign_match_groups. -/
def assign_match_groups (df : List Transaction) (matchList : List MatchGroup) :
    List Transaction :=
  matchList.enum.foldl assignOneGroup df

/-- The session state read and written by the confirm_match route. -/
structure AppState where
  matchList : List MatchGroup
  updatedDf : List Transaction
  unmatchedExpenses : List Transaction
  unmatchedRevenues : List Transaction
  reviewItems : List ReviewItem
deriving DecidableEq

/-- The JSON body of a confirm_match request; a missing revenue_index is
none, mirroring data.get. -/
structure ConfirmRequest where
  revenueIndex : Option ℕ
  expenseIndices : List ℕ
deriving DecidableEq

/-- The responses of the confirm_match route: the invalid-request 400, the
exception-handler 500, the validation-failure 400 carrying the validator's
reason, and the success payload with the remaining review count. -/
inductive ConfirmResponse where
  | invalidData
  | serverError
  | invalid (message : ValidationMessage)
  | success (remainingReviews : ℕ)
deriving DecidableEq

/-- app.confirm_match: reject falsy request fields, look up the revenue row
(an empty lookup raises and is turned into the 500 handler), build the
manual group from the selected unmatched expenses, validate it, and only
on success append it, restamp the DataFrame, shrink the pools and
regenerate the review queue. -/
def confirm_match (fz : String → String → ℚ) (cfg : MatcherConfig)
    (st : AppState) (req : ConfirmRequest) : AppState × ConfirmResponse :=
  match req.revenueIndex with
  | none => (st, ConfirmResponse.invalidData)
  | some revenueIndex =>
    if revenueIndex = 0 ∨ req.expenseIndices = [] then
      (st, ConfirmResponse.invalidData)
    else
      match st.unmatchedRevenues.find? (fun t => decide (t.originalIndex = revenueIndex)) with
      | none => (st, ConfirmResponse.serverError)
      | some revenue =>
        let selectedExpenses := st.unmatchedExpenses.filter
          (fun t => decide (t.originalIndex ∈ req.expenseIndices))
        let newMatch : MatchGroup :=
          { matchType := "manual"
            confidence := 1
            revenue := some revenue
            expenses := selectedExpenses
            balance := revenue.amount + (selectedExpenses.map (fun e => e.amount)).sum }
        let v := validate_match cfg newMatch
        if v.1 then
          let matchList := st.matchList ++ [newMatch]
          let updatedDf := assign_match_groups st.updatedDf matchList
          let unmatchedExpenses := st.unmatchedExpenses.filter
            (fun t => decide (t.originalIndex ∉ req.expenseIndices))
          let unmatchedRevenues := st.unmatchedRevenues.filter
            (fun t => decide (t.originalIndex ≠ revenueIndex))
          let reviewItems := generate_review_items fz cfg unmatchedRevenues unmatchedExpenses
          ({ matchList := matchList
             updatedDf := updatedDf
             unmatchedExpenses := unmatchedExpenses
             unmatchedRevenues := unmatchedRevenues
             reviewItems := reviewItems }, ConfirmResponse.success reviewItems.length)
        else (st, ConfirmResponse.invalid v.2)

/-! ### Auxiliary definitions used by the theorem statements -/

/-- The original index of a group's revenue row (0 if the revenue key is
absent, which never happens for stage-produced groups). -/
def groupRevenueIdx (g : MatchGroup) : ℕ :=
  match g.revenue with
  | some r => r.originalIndex
  | none => 0

/-- The soundness contract every per-revenue selection function of the
cascade satisfies: a produced group carries the processed revenue, draws
its expenses from the available pool, and references distinct expense rows
whenever the pool's indices are distinct. -/
def PickOK (pick : Transaction → List Transaction → Option MatchGroup) : Prop :=
  ∀ r avail g, pick r avail = some g →
    g.revenue = some r ∧ (∀ e ∈ g.expenses, e ∈ avail) ∧
    ((avail.map (fun e => e.originalIndex)).Nodup →
      (g.expenses.map (fun e => e.originalIndex)).Nodup)

/-- A trivial stand-in for the external similarity library, used by the
concrete witness scenarios that never reach the fuzzy stage. -/
def fzZero : String → String → ℚ := fun _ _ => 0

/-! ### Concrete inputs for the witness scenarios -/

/-- Scenario A revenue: 100.00, description Acme Invoice 123. -/
def revSA : Transaction := ⟨1, 100, 100, "Acme Invoice 123", "revenue", "unmatched", none, none⟩

/-- Scenario A expense: -100.00, description acme invoice 123. -/
def expSA : Transaction := ⟨0, -100, 100, "acme invoice 123", "expense", "unmatched", none, none⟩

/-- The group the exact stage produces in Scenario A. -/
def groupSA : MatchGroup :=
  { matchType := "exact", confidence := 1, revenue := some revSA,
    expenses := [expSA], balance := 0 }

/-- Scenario B revenue: 250.00, Consulting fee Acme Corp. -/
def revSB : Transaction := ⟨1, 250, 250, "Consulting fee Acme Corp", "revenue", "unmatched", none, none⟩

/-- Scenario B first expense: -150.00, Acme Corp payment A. -/
def expSB1 : Transaction := ⟨0, -150, 150, "Acme Corp payment A", "expense", "unmatched", none, none⟩

/-- Scenario B second expense: -100.00, Acme Corp payment B. -/
def expSB2 : Transaction := ⟨2, -100, 100, "Acme Corp payment B", "expense", "unmatched", none, none⟩

/-- The group the keyword stage produces in Scenario B: a two-expense
combination whose keyword-overlap scores are both 1/2. -/
def groupSB : MatchGroup :=
  { matchType := "fuzzy_multiple_2", confidence := 1/2, revenue := some revSB,
    expenses := [expSB1, expSB2], balance := 0 }

/-- A revenue whose description shares two keywords with expKW below,
driving the keyword stage into a single-expense solve. -/
def revKW : Transaction := ⟨1, 50, 50, "alpha beta", "revenue", "unmatched", none, none⟩

/-- An expense matching revKW exactly in amount and keywords. -/
def expKW : Transaction := ⟨0, -50, 50, "alpha beta", "expense", "unmatched", none, none⟩

/-- The group the keyword stage produces for revKW/expKW: its kind string
is fuzzy_single, not keyword. -/
def groupKW : MatchGroup :=
  { matchType := "fuzzy_single", confidence := 1, revenue := some revKW,
    expenses := [expKW], balance := 0 }

/-- Scenario D unmatched revenue: 100.00. -/
def revSD : Transaction := ⟨1, 100, 100, "widget order", "revenue", "unmatched", none, none⟩

/-- Scenario D unmatched expense: -99.98, i.e. 0.02 short of revSD. -/
def expSD : Transaction :=
  ⟨0, -(4999:ℚ)/50, (4999:ℚ)/50, "widget order", "expense", "unmatched", none, none⟩

/-- Scenario D session state: one unmatched expense of -99.98 and one
unmatched revenue of 100.00. -/
def stateSD : AppState :=
  { matchList := []
    updatedDf := []
    unmatchedExpenses := [expSD]
    unmatchedRevenues := [revSD]
    reviewItems := [] }

/-- Scenario D request: confirm revenue 1 against expense 0, whose amounts
differ by 0.02. -/
def reqSD : ConfirmRequest := ⟨some 1, [0]⟩

/-- A session state whose unmatched revenue pool contains a transaction
with original index 0. -/
def stateZero : AppState :=
  { matchList := []
    updatedDf := []
    unmatchedExpenses := [⟨5, -10, 10, "a", "expense", "unmatched", none, none⟩]
    unmatchedRevenues := [⟨0, 10, 10, "a", "revenue", "unmatched", none, none⟩]
    reviewItems := [] }

/-- The 0.004 target of the DP counterexample. -/
def dpTarget : ℚ := 1/250

/-- The single 0.004 candidate expense of the DP counterexample. -/
def dpExp : ExpenseRec := ⟨(1:ℚ)/250⟩

/-- A scored candidate whose amount matches revKW, for the single-branch
witness of the ranked bounded search. -/
def peKW : ScoredExpense := ⟨expKW, 1⟩

/-- The candidate manual group confirm_match constructs from the selected
still-unmatched expenses and the located revenue row. -/
def manualGroup (st : AppState) (req : ConfirmRequest) (revenue : Transaction) :
    MatchGroup :=
  { matchType := "manual"
    confidence := 1
    revenue := some revenue
    expenses := st.unmatchedExpenses.filter
      (fun t => decide (t.originalIndex ∈ req.expenseIndices))
    balance := revenue.amount +
      ((st.unmatchedExpenses.filter
        (fun t => decide (t.originalIndex ∈ req.expenseIndices))).map
          (fun e => e.amount)).sum }

/-- The session state confirm_match commits on validation success: the
manual group appended, the DataFrame restamped, the pools shrunk, and the
review queue regenerated from the new pools. -/
def confirmSuccessState (fz : String → String → ℚ) (cfg : MatcherConfig)
    (st : AppState) (req : ConfirmRequest) (ridx : ℕ) (revenue : Transaction) :
    AppState :=
  { matchList := st.matchList ++ [manualGroup st req revenue]
    updatedDf := assign_match_groups st.updatedDf
      (st.matchList ++ [manualGroup st req revenue])
    unmatchedExpenses := st.unmatchedExpenses.filter
      (fun t => decide (t.originalIndex ∉ req.expenseIndices))
    unmatchedRevenues := st.unmatchedRevenues.filter
      (fun t => decide (t.originalIndex ≠ ridx))
    reviewItems := generate_review_items fz cfg
      (st.unmatchedRevenues.filter (fun t => decide (t.originalIndex ≠ ridx)))
      (st.unmatchedExpenses.filter
        (fun t => decide (t.originalIndex ∉ req.expenseIndices))) }

/-- The partition property of one cascade stage: the expense rows
referenced by the produced groups together with the remaining expense pool
are a permutation of the input expense pool (hence disjoint and jointly
exhaustive, by the accompanying Nodup facts), and likewise for revenues. -/
def StagePartition (stage : List MatchGroup × List Transaction × List Transaction)
    (expenses revenues : List Transaction) : Prop :=
  (stage.1.flatMap (fun g => g.expenses.map (fun e => e.originalIndex)) ++
    stage.2.1.map (fun e => e.originalIndex)).Perm
      (expenses.map (fun e => e.originalIndex)) ∧
  (stage.1.map groupRevenueIdx ++
    stage.2.2.map (fun r => r.originalIndex)).Perm
      (revenues.map (fun r => r.originalIndex)) ∧
  (stage.1.flatMap (fun g => g.expenses.map (fun e => e.originalIndex)) ++
    stage.2.1.map (fun e => e.originalIndex)).Nodup ∧
  (stage.1.map groupRevenueIdx ++
    stage.2.2.map (fun r => r.originalIndex)).Nodup

/-- The full partition statement for auto_match_all: each of the three
stages partitions its input pools, and the composition partitions the
original expense and revenue pools. -/
def CascadePartition (fz : String → String → ℚ) (cfg : MatcherConfig)
    (df : List Transaction) : Prop :=
  let expenses0 := df.filter (fun t => decide (t.transactionType = "expense"))
  let revenues0 := df.filter (fun t => decide (t.transactionType = "revenue"))
  let s1 := exact_match cfg expenses0 revenues0
  let s2 := keyword_match cfg s1.2.1 s1.2.2 2
  let s3 := fuzzy_match fz cfg s2.2.1 s2.2.2
  auto_match_all fz cfg df = (s1.1 ++ s2.1 ++ s3.1, s3.2.1, s3.2.2) ∧
  StagePartition s1 expenses0 revenues0 ∧
  StagePartition s2 s1.2.1 s1.2.2 ∧
  StagePartition s3 s2.2.1 s2.2.2 ∧
  ((s1.1 ++ s2.1 ++ s3.1).flatMap
      (fun g => g.expenses.map (fun e => e.originalIndex)) ++
    s3.2.1.map (fun e => e.originalIndex)).Perm
      (expenses0.map (fun e => e.originalIndex)) ∧
  ((s1.1 ++ s2.1 ++ s3.1).map groupRevenueIdx ++
    s3.2.2.map (fun r => r.originalIndex)).Perm
      (revenues0.map (fun r => r.originalIndex))

/-! ## Helper lemmas -/

theorem sortByDesc_perm (key : α → ℚ) (l : List α) : (sortByDesc key l).Perm l :=
  List.perm_insertionSort _ l

theorem sortByDesc_sorted (key : α → ℚ) (l : List α) :
    (sortByDesc key l).Sorted (fun a b => key b ≤ key a) := by
  letI : IsTotal α (fun a b => key b ≤ key a) := ⟨fun a b => le_total (key b) (key a)⟩
  letI : IsTrans α (fun a b => key b ≤ key a) := ⟨fun a b c h₁ h₂ => le_trans h₂ h₁⟩
  exact List.sorted_insertionSort _ l

theorem filter_orderedInsert_key (key : α → ℚ) (q : ℚ) (x : α) :
    ∀ l : List α,
      (List.orderedInsert (fun a b => key b ≤ key a) x l).filter
          (fun a => decide (key a = q)) =
        if key x = q then x :: l.filter (fun a => decide (key a = q))
        else l.filter (fun a => decide (key a = q))
  | [] => by
    by_cases hx : key x = q <;>
      simp [List.orderedInsert, List.filter_cons, hx]
  | b :: l => by
    simp only [List.orderedInsert]
    by_cases hbx : key b ≤ key x
    · rw [if_pos hbx]
      by_cases hx : key x = q <;> simp [List.filter_cons, hx]
    · rw [if_neg hbx]
      have hlt : key x < key b := lt_of_not_le hbx
      by_cases hx : key x = q
      · have hbq : ¬ key b = q := fun hb => absurd (hb.trans hx.symm) (ne_of_gt hlt)
        simp [List.filter_cons, hbq, filter_orderedInsert_key key q x l, hx]
      · by_cases hbq : key b = q <;>
          simp [List.filter_cons, hbq, filter_orderedInsert_key key q x l, hx]

theorem sortByDesc_stable (key : α → ℚ) (q : ℚ) :
    ∀ l : List α,
      (sortByDesc key l).filter (fun a => decide (key a = q)) =
        l.filter (fun a => decide (key a = q))
  | [] => rfl
  | x :: l => by
    show (List.orderedInsert _ x (List.insertionSort _ l)).filter _ = _
    rw [filter_orderedInsert_key]
    have ih := sortByDesc_stable key q l
    by_cases hx : key x = q <;>
      simp only [hx, if_pos, if_neg, List.filter_cons, sortByDesc] at * <;>
      simp [hx, ih]

theorem sublist_of_mem_combosOf :
    ∀ (l : List α) (k : ℕ) (c : List α), c ∈ combosOf k l → List.Sublist c l
  | l, 0, c, h => by
    simp only [combosOf, List.mem_singleton] at h
    subst h
    exact List.nil_sublist _
  | [], _ + 1, c, h => by simp [combosOf] at h
  | x :: xs, k + 1, c, h => by
    simp only [combosOf, List.mem_append, List.mem_map] at h
    rcases h with ⟨c', hc', rfl⟩ | h
    · exact List.Sublist.cons₂ x (sublist_of_mem_combosOf xs k c' hc')
    · exact List.Sublist.cons x (sublist_of_mem_combosOf xs (k + 1) c h)

theorem length_of_mem_combosOf :
    ∀ (l : List α) (k : ℕ) (c : List α), c ∈ combosOf k l → c.length = k
  | l, 0, c, h => by
    simp only [combosOf, List.mem_singleton] at h
    subst h
    rfl
  | [], _ + 1, c, h => by simp [combosOf] at h
  | x :: xs, k + 1, c, h => by
    simp only [combosOf, List.mem_append, List.mem_map] at h
    rcases h with ⟨c', hc', rfl⟩ | h
    · simp [length_of_mem_combosOf xs k c' hc']
    · exact length_of_mem_combosOf xs (k + 1) c h

theorem find?_eq_some_split {p : α → Bool} :
    ∀ {l : List α} {a : α}, l.find? p = some a →
      ∃ s t, l = s ++ a :: t ∧ (∀ x ∈ s, p x = false) ∧ p a = true
  | [], a, h => by simp [List.find?] at h
  | b :: l, a, h => by
    cases hb : p b with
    | true =>
      rw [List.find?_cons_of_pos _ hb, Option.some_inj] at h
      subst h
      exact ⟨[], l, rfl, by simp, hb⟩
    | false =>
      rw [List.find?_cons_of_neg _ (by simp [hb])] at h
      rcases find?_eq_some_split h with ⟨s, t, rfl, hs, ha⟩
      refine ⟨b :: s, t, rfl, ?_, ha⟩
      intro x hx
      rcases List.mem_cons.mp hx with rfl | hx
      · exact hb
      · exact hs x hx

theorem dpReach_iff (cents : α → ℕ) :
    ∀ (l : List α) (j : ℕ),
      dpReach cents l j = true ↔
        ∃ sub, List.Sublist sub l ∧ (sub.map cents).sum = j
  | [], j => by
    simp only [dpReach, beq_iff_eq]
    constructor
    · rintro rfl
      exact ⟨[], List.nil_sublist _, rfl⟩
    · rintro ⟨sub, hs, hsum⟩
      rw [List.sublist_nil.mp hs] at hsum
      simpa using hsum.symm
  | x :: rest, j => by
    simp only [dpReach, Bool.or_eq_true, Bool.and_eq_true, decide_eq_true_eq]
    constructor
    · rintro (h | ⟨hle, h⟩)
      · rcases (dpReach_iff cents rest j).mp h with ⟨sub, hs, hsum⟩
        exact ⟨sub, hs.cons x, hsum⟩
      · rcases (dpReach_iff cents rest (j - cents x)).mp h with ⟨sub, hs, hsum⟩
        refine ⟨x :: sub, hs.cons₂ x, ?_⟩
        simp only [List.map_cons, List.sum_cons, hsum]
        exact Nat.add_sub_cancel' hle
    · rintro ⟨sub, hs, hsum⟩
      rcases List.sublist_cons_iff.mp hs with hs' | ⟨r, rfl, hr⟩
      · exact Or.inl ((dpReach_iff cents rest j).mpr ⟨sub, hs', hsum⟩)
      · right
        simp only [List.map_cons, List.sum_cons] at hsum
        refine ⟨by omega, (dpReach_iff cents rest (j - cents x)).mpr ⟨r, hr, by omega⟩⟩

theorem dpBacktrack_spec (cents : α → ℕ) :
    ∀ (l : List α) (j : ℕ), dpReach cents l j = true →
      List.Sublist (dpBacktrack cents l j) l ∧
        ((dpBacktrack cents l j).map cents).sum = j
  | [], j, h => by
    simp only [dpReach, beq_iff_eq] at h
    subst h
    exact ⟨List.nil_sublist _, rfl⟩
  | x :: rest, j, h => by
    by_cases hj : j = 0
    · subst hj
      simp only [dpBacktrack, if_pos rfl]
      exact ⟨List.nil_sublist _, rfl⟩
    · simp only [dpBacktrack, if_neg hj]
      by_cases hr : dpReach cents rest j = true
      · rw [if_pos hr]
        obtain ⟨h1, h2⟩ := dpBacktrack_spec cents rest j hr
        exact ⟨h1.cons x, h2⟩
      · rw [if_neg hr]
        simp only [dpReach, Bool.or_eq_true, Bool.and_eq_true, decide_eq_true_eq] at h
        rcases h with h | ⟨hle, h⟩
        · exact absurd h hr
        · obtain ⟨h1, h2⟩ := dpBacktrack_spec cents rest (j - cents x) h
          refine ⟨h1.cons₂ x, ?_⟩
          simp only [List.map_cons, List.sum_cons, h2]
          exact Nat.add_sub_cancel' hle

theorem dpReach_congr (c₁ : α → ℕ) (c₂ : β → ℕ) :
    ∀ (l₁ : List α) (l₂ : List β), l₁.map c₁ = l₂.map c₂ →
      ∀ j, dpReach c₁ l₁ j = dpReach c₂ l₂ j
  | [], [], _, j => rfl
  | [], _ :: _, h, _ => by simp at h
  | _ :: _, [], h, _ => by simp at h
  | a :: l₁, b :: l₂, h, j => by
    simp only [List.map_cons, List.cons.injEq] at h
    obtain ⟨hab, hl⟩ := h
    simp only [dpReach, hab, dpReach_congr c₁ c₂ l₁ l₂ hl]

theorem dpBacktrack_congr (c₁ : α → ℕ) (c₂ : β → ℕ) :
    ∀ (l₁ : List α) (l₂ : List β), l₁.map c₁ = l₂.map c₂ →
      ∀ j, (dpBacktrack c₁ l₁ j).map c₁ = (dpBacktrack c₂ l₂ j).map c₂
  | [], [], _, j => rfl
  | [], _ :: _, h, _ => by simp at h
  | _ :: _, [], h, _ => by simp at h
  | a :: l₁, b :: l₂, h, j => by
    simp only [List.map_cons, List.cons.injEq] at h
    obtain ⟨hab, hl⟩ := h
    by_cases hj : j = 0
    · simp [dpBacktrack, hj]
    · simp only [dpBacktrack, if_neg hj, dpReach_congr c₁ c₂ l₁ l₂ hl j]
      by_cases hr : dpReach c₂ l₂ j = true
      · rw [if_pos hr, if_pos hr]
        exact dpBacktrack_congr c₁ c₂ l₁ l₂ hl j
      · rw [if_neg hr, if_neg hr]
        simp only [List.map_cons, hab, dpBacktrack_congr c₁ c₂ l₁ l₂ hl (j - c₂ b)]

theorem map_filterMap_sublist (f : α → Option β) (g : β → α)
    (hfg : ∀ a b, f a = some b → g b = a) :
    ∀ l : List α, List.Sublist ((l.filterMap f).map g) l
  | [] => List.nil_sublist _
  | a :: l => by
    cases hfa : f a with
    | none =>
      simp only [List.filterMap_cons, hfa]
      exact (map_filterMap_sublist f g hfg l).cons a
    | some b =>
      simp only [List.filterMap_cons, hfa, List.map_cons, hfg a b hfa]
      exact (map_filterMap_sublist f g hfg l).cons₂ a

theorem decide_not_mem_union (i : ℕ) (s t : Finset ℕ) :
    decide (i ∉ s ∪ t) = (decide (i ∉ t) && decide (i ∉ s)) := by
  by_cases hs : i ∈ s <;> by_cases ht : i ∈ t <;> simp [hs, ht]

theorem filter_not_mem_empty (l : List Transaction) :
    l.filter (fun e => decide (e.originalIndex ∉ (∅ : Finset ℕ))) = l :=
  List.filter_eq_self.mpr (fun a _ => by simp)

theorem stageGo_acc (pick : Transaction → List Transaction → Option MatchGroup)
    (es : List Transaction) :
    ∀ (rs : List Transaction) (gs : List MatchGroup) (ce cr : Finset ℕ),
      stageGo pick es rs gs ce cr =
        (gs ++ (stageGo pick es rs [] ce cr).1,
         (stageGo pick es rs [] ce cr).2.1,
         (stageGo pick es rs [] ce cr).2.2)
  | [], gs, ce, cr => by simp [stageGo]
  | r :: rs, gs, ce, cr => by
    cases hp : pick r (es.filter (fun e => decide (e.originalIndex ∉ ce))) with
    | none => simp only [stageGo, hp]; exact stageGo_acc pick es rs gs ce cr
    | some g =>
      simp only [stageGo, hp]
      rw [stageGo_acc pick es rs (gs ++ [g]), stageGo_acc pick es rs ([] ++ [g])]
      simp

theorem stageGo_ce_mono (pick : Transaction → List Transaction → Option MatchGroup)
    (es : List Transaction) :
    ∀ (rs : List Transaction) (gs : List MatchGroup) (ce cr : Finset ℕ),
      ce ⊆ (stageGo pick es rs gs ce cr).2.1
  | [], gs, ce, cr => Finset.Subset.refl ce
  | r :: rs, gs, ce, cr => by
    cases hp : pick r (es.filter (fun e => decide (e.originalIndex ∉ ce))) with
    | none => simp only [stageGo, hp]; exact stageGo_ce_mono pick es rs gs ce cr
    | some g =>
      simp only [stageGo, hp]
      exact Finset.Subset.trans Finset.subset_union_left
        (stageGo_ce_mono pick es rs (gs ++ [g]) _ _)

theorem stageGo_cr_mono (pick : Transaction → List Transaction → Option MatchGroup)
    (es : List Transaction) :
    ∀ (rs : List Transaction) (gs : List MatchGroup) (ce cr : Finset ℕ),
      cr ⊆ (stageGo pick es rs gs ce cr).2.2
  | [], gs, ce, cr => Finset.Subset.refl cr
  | r :: rs, gs, ce, cr => by
    cases hp : pick r (es.filter (fun e => decide (e.originalIndex ∉ ce))) with
    | none => simp only [stageGo, hp]; exact stageGo_cr_mono pick es rs gs ce cr
    | some g =>
      simp only [stageGo, hp]
      exact Finset.Subset.trans (Finset.subset_insert _ cr)
        (stageGo_cr_mono pick es rs (gs ++ [g]) _ _)

theorem stageGo_cr_bound (pick : Transaction → List Transaction → Option MatchGroup)
    (es : List Transaction) :
    ∀ (rs : List Transaction) (gs : List MatchGroup) (ce cr : Finset ℕ),
      (stageGo pick es rs gs ce cr).2.2 ⊆
        cr ∪ (rs.map (fun r => r.originalIndex)).toFinset
  | [], gs, ce, cr => by simp [stageGo]
  | r :: rs, gs, ce, cr => by
    cases hp : pick r (es.filter (fun e => decide (e.originalIndex ∉ ce))) with
    | none =>
      simp only [stageGo, hp]
      intro a ha
      have h2 := stageGo_cr_bound pick es rs gs ce cr ha
      simp only [Finset.mem_union, List.map_cons, List.toFinset_cons,
        Finset.mem_insert] at h2 ⊢
      tauto
    | some g =>
      simp only [stageGo, hp]
      intro a ha
      have h2 := stageGo_cr_bound pick es rs (gs ++ [g]) _ _ ha
      simp only [Finset.mem_union, Finset.mem_insert, List.map_cons,
        List.toFinset_cons] at h2 ⊢
      tauto

theorem stageGo_none (pick : Transaction → List Transaction → Option MatchGroup)
    (es : List Transaction) :
    ∀ (rs : List Transaction) (gs : List MatchGroup) (ce cr : Finset ℕ),
      (∀ r ∈ rs, pick r (es.filter (fun e => decide (e.originalIndex ∉ ce))) = none) →
      stageGo pick es rs gs ce cr = (gs, ce, cr)
  | [], gs, ce, cr, _ => by simp [stageGo]
  | r :: rs, gs, ce, cr, h => by
    simp only [stageGo, h r (List.mem_cons_self r rs)]
    exact stageGo_none pick es rs gs ce cr (fun r' hr' => h r' (List.mem_cons_of_mem r hr'))

theorem stageGo_groups_mem (pick : Transaction → List Transaction → Option MatchGroup)
    (es : List Transaction) :
    ∀ (rs : List Transaction) (gs : List MatchGroup) (ce cr : Finset ℕ) (g : MatchGroup),
      g ∈ (stageGo pick es rs gs ce cr).1 →
      g ∈ gs ∨ ∃ (r : Transaction) (ce₀ : Finset ℕ), r ∈ rs ∧
        pick r (es.filter (fun e => decide (e.originalIndex ∉ ce₀))) = some g
  | [], gs, ce, cr, g, h => Or.inl (by simpa [stageGo] using h)
  | r :: rs, gs, ce, cr, g, h => by
    cases hp : pick r (es.filter (fun e => decide (e.originalIndex ∉ ce))) with
    | none =>
      simp only [stageGo, hp] at h
      rcases stageGo_groups_mem pick es rs gs ce cr g h with hg | ⟨r', ce₀, hr', hp'⟩
      · exact Or.inl hg
      · exact Or.inr ⟨r', ce₀, List.mem_cons_of_mem r hr', hp'⟩
    | some g' =>
      simp only [stageGo, hp] at h
      rcases stageGo_groups_mem pick es rs (gs ++ [g']) _ _ g h with hg | ⟨r', ce₀, hr', hp'⟩
      · rcases List.mem_append.mp hg with hg | hg
        · exact Or.inl hg
        · rw [List.mem_singleton.mp hg]
          exact Or.inr ⟨r, ce, List.mem_cons_self r rs, hp⟩
      · exact Or.inr ⟨r', ce₀, List.mem_cons_of_mem r hr', hp'⟩

theorem stageGo_unmatched_exact (cfg : MatcherConfig) (es : List Transaction) :
    ∀ (rs : List Transaction) (gs : List MatchGroup) (ce cr : Finset ℕ)
      (r : Transaction), r ∈ rs →
      r.originalIndex ∉ (stageGo (exactPick cfg) es rs gs ce cr).2.2 →
      ∀ e ∈ es,
        e.originalIndex ∉ (stageGo (exactPick cfg) es rs gs ce cr).2.1 →
        exactPred cfg r e = false
  | [], gs, ce, cr, r, hr, _ => absurd hr (List.not_mem_nil r)
  | r₀ :: rs, gs, ce, cr, r, hr, hnr => by
    intro e he hne
    cases hp : exactPick cfg r₀ (es.filter (fun e => decide (e.originalIndex ∉ ce))) with
    | some g =>
      simp only [stageGo, hp] at hnr hne
      rcases List.mem_cons.mp hr with rfl | hr'
      · exact absurd (stageGo_cr_mono (exactPick cfg) es rs (gs ++ [g]) _ _
          (Finset.mem_insert_self r.originalIndex cr)) hnr
      · exact stageGo_unmatched_exact cfg es rs (gs ++ [g]) _ _ r hr' hnr e he hne
    | none =>
      simp only [stageGo, hp] at hnr hne
      rcases List.mem_cons.mp hr with rfl | hr'
      · have hfind : (es.filter (fun e => decide (e.originalIndex ∉ ce))).find?
            (fun e => exactPred cfg r e) = none := Option.map_eq_none'.mp hp
        have hall := List.find?_eq_none.mp hfind
        have hece : e.originalIndex ∉ ce := fun hce =>
          hne (stageGo_ce_mono (exactPick cfg) es rs gs ce cr hce)
        have hmem : e ∈ es.filter (fun e => decide (e.originalIndex ∉ ce)) :=
          List.mem_filter.mpr ⟨he, by simpa using hece⟩
        exact Bool.eq_false_iff.mpr (hall e hmem)
      · exact stageGo_unmatched_exact cfg es rs gs ce cr r hr' hnr e he hne

theorem consume_perm (es : List Transaction)
    (hnd : (es.map (fun e => e.originalIndex)).Nodup)
    (ce : Finset ℕ) (ids : List ℕ) (hids : ids.Nodup)
    (hmem : ∀ i ∈ ids,
      i ∈ (es.filter (fun e => decide (e.originalIndex ∉ ce))).map
        (fun e => e.originalIndex)) :
    (ids ++ (es.filter (fun e => decide (e.originalIndex ∉ ce ∪ ids.toFinset))).map
        (fun e => e.originalIndex)).Perm
      ((es.filter (fun e => decide (e.originalIndex ∉ ce))).map
        (fun e => e.originalIndex)) := by
  have hsplit : es.filter (fun e => decide (e.originalIndex ∉ ce ∪ ids.toFinset)) =
      (es.filter (fun e => decide (e.originalIndex ∉ ce))).filter
        (fun e => decide (e.originalIndex ∉ ids.toFinset)) := by
    rw [List.filter_filter]
    exact List.filter_congr
      (fun e _ => (decide_not_mem_union e.originalIndex ce ids.toFinset))
  have hcomm : ∀ p : ℕ → Bool,
      ((es.filter (fun e => decide (e.originalIndex ∉ ce))).filter
          (fun e => p e.originalIndex)).map (fun e => e.originalIndex) =
        ((es.filter (fun e => decide (e.originalIndex ∉ ce))).map
          (fun e => e.originalIndex)).filter p := by
    intro p
    rw [List.filter_map]
    rfl
  have hAMnd : ((es.filter (fun e => decide (e.originalIndex ∉ ce))).map
      (fun e => e.originalIndex)).Nodup :=
    List.Nodup.sublist (List.Sublist.map _ (List.filter_sublist es)) hnd
  have hperm1 : ids.Perm
      (((es.filter (fun e => decide (e.originalIndex ∉ ce))).map
        (fun e => e.originalIndex)).filter (fun i => decide (i ∈ ids.toFinset))) := by
    apply List.perm_of_nodup_nodup_toFinset_eq hids (List.Nodup.filter _ hAMnd)
    ext i
    simp only [List.mem_toFinset, List.mem_filter, decide_eq_true_eq]
    constructor
    · intro hi
      exact ⟨hmem i hi, hi⟩
    · rintro ⟨_, hi⟩
      exact hi
  have hsplit2 :
      ((((es.filter (fun e => decide (e.originalIndex ∉ ce))).map
          (fun e => e.originalIndex)).filter (fun i => decide (i ∈ ids.toFinset))) ++
        (((es.filter (fun e => decide (e.originalIndex ∉ ce))).map
          (fun e => e.originalIndex)).filter (fun i => decide (i ∉ ids.toFinset)))).Perm
      ((es.filter (fun e => decide (e.originalIndex ∉ ce))).map
        (fun e => e.originalIndex)) := by
    have hneg : (((es.filter (fun e => decide (e.originalIndex ∉ ce))).map
        (fun e => e.originalIndex)).filter (fun i => decide (i ∉ ids.toFinset))) =
        (((es.filter (fun e => decide (e.originalIndex ∉ ce))).map
          (fun e => e.originalIndex)).filter
            (fun i => !decide (i ∈ ids.toFinset))) :=
      List.filter_congr (fun i _ => decide_not)
    rw [hneg]
    exact List.filter_append_perm _ _
  rw [hsplit, hcomm (fun i => decide (i ∉ ids.toFinset))]
  exact (hperm1.append_right _).trans hsplit2

theorem stageGo_exp_perm (pick : Transaction → List Transaction → Option MatchGroup)
    (es : List Transaction) (hpick : PickOK pick)
    (hnd : (es.map (fun e => e.originalIndex)).Nodup) :
    ∀ (rs : List Transaction) (ce cr : Finset ℕ),
      ((stageGo pick es rs [] ce cr).1.flatMap
          (fun g => g.expenses.map (fun e => e.originalIndex)) ++
        (es.filter (fun e =>
          decide (e.originalIndex ∉ (stageGo pick es rs [] ce cr).2.1))).map
          (fun e => e.originalIndex)).Perm
      ((es.filter (fun e => decide (e.originalIndex ∉ ce))).map
        (fun e => e.originalIndex))
  | [], ce, cr => by simp [stageGo]
  | r :: rs, ce, cr => by
    cases hp : pick r (es.filter (fun e => decide (e.originalIndex ∉ ce))) with
    | none =>
      simp only [stageGo, hp]
      exact stageGo_exp_perm pick es hpick hnd rs ce cr
    | some g =>
      have hgok := hpick r _ g hp
      have havnd : ((es.filter (fun e => decide (e.originalIndex ∉ ce))).map
          (fun e => e.originalIndex)).Nodup :=
        List.Nodup.sublist (List.Sublist.map _ (List.filter_sublist es)) hnd
      have hids : (g.expenses.map (fun e => e.originalIndex)).Nodup :=
        hgok.2.2 havnd
      have hmem : ∀ i ∈ g.expenses.map (fun e => e.originalIndex),
          i ∈ (es.filter (fun e => decide (e.originalIndex ∉ ce))).map
            (fun e => e.originalIndex) := by
        intro i hi
        rcases List.mem_map.mp hi with ⟨e, he, rfl⟩
        exact List.mem_map_of_mem _ (hgok.2.1 e he)
      simp only [stageGo, hp, List.nil_append]
      rw [stageGo_acc pick es rs [g]]
      simp only [List.cons_append, List.nil_append, List.flatMap_cons]
      rw [List.append_assoc]
      refine List.Perm.trans (List.Perm.append_left _ ?_)
        (consume_perm es hnd ce (g.expenses.map (fun e => e.originalIndex)) hids hmem)
      exact stageGo_exp_perm pick es hpick hnd rs
        (ce ∪ (g.expenses.map (fun e => e.originalIndex)).toFinset)
        (insert r.originalIndex cr)

theorem stageGo_rev_perm (pick : Transaction → List Transaction → Option MatchGroup)
    (es : List Transaction) (hpick : PickOK pick) :
    ∀ (rs : List Transaction) (ce cr : Finset ℕ),
      (rs.map (fun r => r.originalIndex)).Nodup →
      (∀ r ∈ rs, r.originalIndex ∉ cr) →
      ((stageGo pick es rs [] ce cr).1.map groupRevenueIdx ++
        (rs.filter (fun r =>
          decide (r.originalIndex ∉ (stageGo pick es rs [] ce cr).2.2))).map
          (fun r => r.originalIndex)).Perm
      (rs.map (fun r => r.originalIndex))
  | [], ce, cr, _, _ => by simp [stageGo]
  | r :: rs, ce, cr, hnd, hcr => by
    rw [List.map_cons, List.nodup_cons] at hnd
    obtain ⟨hr_not, hnd'⟩ := hnd
    cases hp : pick r (es.filter (fun e => decide (e.originalIndex ∉ ce))) with
    | none =>
      simp only [stageGo, hp]
      have hrne : r.originalIndex ∉ (stageGo pick es rs [] ce cr).2.2 := by
        intro hin
        have hb := stageGo_cr_bound pick es rs [] ce cr hin
        simp only [Finset.mem_union, List.mem_toFinset] at hb
        rcases hb with h | h
        · exact hcr r (List.mem_cons_self r rs) h
        · exact hr_not (by simpa using h)
      rw [List.filter_cons, if_pos (by simpa using hrne), List.map_cons, List.map_cons]
      refine List.Perm.trans List.perm_middle ?_
      exact List.Perm.cons _ (stageGo_rev_perm pick es hpick rs ce cr hnd'
        (fun r' hr' => hcr r' (List.mem_cons_of_mem r hr')))
    | some g =>
      simp only [stageGo, hp, List.nil_append]
      rw [stageGo_acc pick es rs [g]]
      have hrin : r.originalIndex ∈
          (stageGo pick es rs []
            (ce ∪ (g.expenses.map (fun e => e.originalIndex)).toFinset)
            (insert r.originalIndex cr)).2.2 :=
        stageGo_cr_mono pick es rs [] _ _ (Finset.mem_insert_self _ cr)
      rw [List.filter_cons, if_neg (by simpa using hrin)]
      have hrev : groupRevenueIdx g = r.originalIndex := by
        have h1 := (hpick r _ g hp).1
        simp [groupRevenueIdx, h1]
      simp only [List.cons_append, List.nil_append, List.map_cons, hrev]
      refine List.Perm.cons _ ?_
      refine stageGo_rev_perm pick es hpick rs _ _ hnd' ?_
      intro r' hr'
      simp only [Finset.mem_insert, not_or]
      refine ⟨fun he => hr_not ?_, hcr r' (List.mem_cons_of_mem r hr')⟩
      rw [← he]
      exact List.mem_map_of_mem _ hr'

theorem runStage_exp_perm (pick : Transaction → List Transaction → Option MatchGroup)
    (es rs : List Transaction) (hpick : PickOK pick)
    (hnd : (es.map (fun e => e.originalIndex)).Nodup) :
    ((runStage pick es rs).1.flatMap
        (fun g => g.expenses.map (fun e => e.originalIndex)) ++
      (runStage pick es rs).2.1.map (fun e => e.originalIndex)).Perm
    (es.map (fun e => e.originalIndex)) := by
  have h := stageGo_exp_perm pick es hpick hnd rs ∅ ∅
  rw [filter_not_mem_empty] at h
  exact h

theorem runStage_rev_perm (pick : Transaction → List Transaction → Option MatchGroup)
    (es rs : List Transaction) (hpick : PickOK pick)
    (hnd : (rs.map (fun r => r.originalIndex)).Nodup) :
    ((runStage pick es rs).1.map groupRevenueIdx ++
      (runStage pick es rs).2.2.map (fun r => r.originalIndex)).Perm
    (rs.map (fun r => r.originalIndex)) :=
  stageGo_rev_perm pick es hpick rs ∅ ∅ hnd (fun _ _ => Finset.not_mem_empty _)

theorem runStage_exp_sublist (pick : Transaction → List Transaction → Option MatchGroup)
    (es rs : List Transaction) : List.Sublist (runStage pick es rs).2.1 es :=
  List.filter_sublist es

theorem runStage_rev_sublist (pick : Transaction → List Transaction → Option MatchGroup)
    (es rs : List Transaction) : List.Sublist (runStage pick es rs).2.2 rs :=
  List.filter_sublist rs

theorem exactPick_ok (cfg : MatcherConfig) : PickOK (exactPick cfg) := by
  intro r avail g hg
  simp only [exactPick] at hg
  cases hf : avail.find? (fun e => exactPred cfg r e) with
  | none => rw [hf] at hg; simp at hg
  | some e =>
    rw [hf, Option.map_some', Option.some_inj] at hg
    subst hg
    refine ⟨rfl, ?_, fun _ => by simp⟩
    intro e' he'
    rw [List.mem_singleton.mp he']
    exact List.mem_of_find?_eq_some hf

theorem find_best_spec (cfg : MatcherConfig) (revenue : Transaction)
    (pes : List ScoredExpense) (g : MatchGroup)
    (hg : find_best_expense_combination cfg revenue pes = some g) :
    g.revenue = some revenue ∧
    ∃ chosen : List ScoredExpense,
      chosen ≠ [] ∧
      List.Sublist chosen (sortByDesc (fun pe => pe.score) pes) ∧
      g.expenses = chosen.map (fun pe => pe.expense) ∧
      g.confidence = (chosen.map (fun pe => pe.score)).sum / (chosen.length : ℚ) ∧
      |(chosen.map (fun pe => pe.expense.absAmount)).sum - revenue.absAmount| <
        cfg.balanceTolerance ∧
      ((g.matchType = "fuzzy_single" ∧ chosen.length = 1) ∨
        (g.matchType = "fuzzy_multiple_" ++ toString chosen.length ∧
          2 ≤ chosen.length ∧ chosen.length ≤ 5)) := by
  simp only [find_best_expense_combination] at hg
  cases hf : (sortByDesc (fun pe => pe.score) pes).find?
      (fun pe => decide (|pe.expense.absAmount - revenue.absAmount| <
        cfg.balanceTolerance)) with
  | some pe =>
    rw [hf, Option.some_inj] at hg
    subst hg
    refine ⟨rfl, [pe], by simp, ?_, by simp, by simp, ?_, Or.inl ⟨rfl, rfl⟩⟩
    · exact List.singleton_sublist.mpr (List.mem_of_find?_eq_some hf)
    · have := List.find?_some hf
      simp only [decide_eq_true_eq] at this
      simpa using this
  | none =>
    rw [hf] at hg
    cases hc : (comboList (sortByDesc (fun pe => pe.score) pes) pes.length).find?
        (fun combo => decide
          (|(combo.map (fun pe => pe.expense.absAmount)).sum - revenue.absAmount| <
            cfg.balanceTolerance)) with
    | none => rw [hc] at hg; simp at hg
    | some combo =>
      rw [hc, Option.some_inj] at hg
      subst hg
      have hmem := List.mem_of_find?_eq_some hc
      simp only [comboList, List.mem_flatMap] at hmem
      obtain ⟨k, hk, hck⟩ := hmem
      have hlen := length_of_mem_combosOf _ k combo hck
      have hkrange : 2 ≤ k ∧ k ≤ 5 := by
        simp only [comboSizes, List.mem_range'] at hk
        omega
      have hsub : List.Sublist combo (sortByDesc (fun pe => pe.score) pes) :=
        List.Sublist.trans (sublist_of_mem_combosOf _ k combo hck)
          (List.take_sublist 10 _)
      have htol := List.find?_some hc
      simp only [decide_eq_true_eq] at htol
      refine ⟨rfl, combo, ?_, hsub, rfl, rfl, htol, Or.inr ⟨rfl, ?_, ?_⟩⟩
      · intro hnil
        rw [hnil] at hlen
        simp only [List.length_nil] at hlen
        omega
      · omega
      · omega

theorem find_best_pick_ok (cfg : MatcherConfig) (r : Transaction)
    (avail : List Transaction) (pot : List ScoredExpense)
    (hsub : List.Sublist (pot.map (fun pe => pe.expense)) avail)
    (g : MatchGroup) (hg : find_best_expense_combination cfg r pot = some g) :
    g.revenue = some r ∧ (∀ e ∈ g.expenses, e ∈ avail) ∧
    ((avail.map (fun e => e.originalIndex)).Nodup →
      (g.expenses.map (fun e => e.originalIndex)).Nodup) := by
  obtain ⟨hrev, chosen, _, hchs, hexp, _⟩ := find_best_spec cfg r pot g hg
  have hchosen_mem : ∀ pe ∈ chosen, pe ∈ pot := by
    intro pe hpe
    exact ((sortByDesc_perm (fun pe => pe.score) pot).mem_iff).mp (hchs.subset hpe)
  refine ⟨hrev, ?_, ?_⟩
  · intro e he
    rw [hexp] at he
    rcases List.mem_map.mp he with ⟨pe, hpe, rfl⟩
    exact hsub.subset (List.mem_map_of_mem _ (hchosen_mem pe hpe))
  · intro hnd
    rw [hexp, List.map_map]
    have h1 : (pot.map (fun pe => pe.expense.originalIndex)).Nodup := by
      have : pot.map (fun pe => pe.expense.originalIndex) =
          (pot.map (fun pe => pe.expense)).map (fun e => e.originalIndex) := by
        rw [List.map_map]; rfl
      rw [this]
      exact List.Nodup.sublist (List.Sublist.map _ hsub) hnd
    have h2 : ((sortByDesc (fun pe => pe.score) pot).map
        (fun pe => pe.expense.originalIndex)).Nodup :=
      ((sortByDesc_perm (fun pe => pe.score) pot).map _).symm.nodup h1
    exact List.Nodup.sublist (List.Sublist.map _ hchs) h2

theorem keywordPot_sublist (cfg : MatcherConfig) (mk : ℕ) (r : Transaction)
    (avail : List Transaction) :
    List.Sublist ((avail.filterMap (fun e =>
      if mk ≤ ((extract_keywords cfg r.description) ∩
          (extract_keywords cfg e.description)).card then
        some (⟨e, keywordOverlapScore (extract_keywords cfg r.description)
          (extract_keywords cfg e.description)⟩ : ScoredExpense)
      else none)).map (fun pe => pe.expense)) avail := by
  apply map_filterMap_sublist
  intro a b hab
  split at hab
  · rw [Option.some_inj] at hab
    rw [← hab]
  · exact absurd hab (by simp)

theorem keywordPick_ok (cfg : MatcherConfig) (mk : ℕ) : PickOK (keywordPick cfg mk) := by
  intro r avail g hg
  simp only [keywordPick] at hg
  split at hg
  · exact absurd hg (by simp)
  · split at hg
    · exact absurd hg (by simp)
    · exact find_best_pick_ok cfg r avail _ (keywordPot_sublist cfg mk r avail) g hg

theorem fuzzyPot_sublist (fz : String → String → ℚ) (cfg : MatcherConfig)
    (r : Transaction) (avail : List Transaction) :
    List.Sublist ((avail.filterMap (fun e =>
      if cfg.fuzzyThreshold ≤ calculate_similarity fz r.description e.description then
        some (⟨e, calculate_similarity fz r.description e.description⟩ : ScoredExpense)
      else none)).map (fun pe => pe.expense)) avail := by
  apply map_filterMap_sublist
  intro a b hab
  split at hab
  · rw [Option.some_inj] at hab
    rw [← hab]
  · exact absurd hab (by simp)

theorem fuzzyPick_ok (fz : String → String → ℚ) (cfg : MatcherConfig) :
    PickOK (fuzzyPick fz cfg) := by
  intro r avail g hg
  simp only [fuzzyPick] at hg
  split at hg
  · exact absurd hg (by simp)
  · exact find_best_pick_ok cfg r avail _ (fuzzyPot_sublist fz cfg r avail) g hg

/-! ## Claim theorems -/

/-- C7: validate_match fails with the missing-revenue reason exactly when no
revenue is present, otherwise fails with the missing-expenses reason exactly
when the expense list is empty, otherwise fails with an unbalanced reason
carrying the numeric residual exactly when the absolute residual is not
strictly less than the balance tolerance, and succeeds in every remaining
case. -/
theorem c7_validate_match_cases (cfg : MatcherConfig) (m : MatchGroup) :
    ((validate_match cfg m).2 = ValidationMessage.noRevenue ↔ m.revenue = none)
    ∧ ((validate_match cfg m).2 = ValidationMessage.noExpenses ↔
        m.revenue ≠ none ∧ m.expenses = [])
    ∧ (∀ q : ℚ, (validate_match cfg m).2 = ValidationMessage.unbalanced q ↔
        m.revenue ≠ none ∧ m.expenses ≠ [] ∧
        ¬ |calculate_match_balance m| < cfg.balanceTolerance ∧
        q = calculate_match_balance m)
    ∧ ((validate_match cfg m).1 = true ↔
        m.revenue ≠ none ∧ m.expenses ≠ [] ∧
        |calculate_match_balance m| < cfg.balanceTolerance)
    ∧ ((validate_match cfg m).2 = ValidationMessage.valid ↔
        (validate_match cfg m).1 = true) := by
  cases hrev : m.revenue with
  | none => simp [validate_match, hrev]
  | some r =>
    by_cases hexp : m.expenses = []
    · simp [validate_match, hrev, hexp]
    · by_cases hbal : |calculate_match_balance m| < cfg.balanceTolerance
      · simp [validate_match, is_balanced, hrev, hexp, hbal]
      · simp [validate_match, is_balanced, hrev, hexp, hbal, eq_comm]

/-- C8: running the Exact stage a second time on the remaining pools of a
first Exact run produces zero new groups and returns both pools
unchanged. -/
theorem c8_exact_match_idempotent (cfg : MatcherConfig)
    (expenses revenues : List Transaction) :
    exact_match cfg (exact_match cfg expenses revenues).2.1
        (exact_match cfg expenses revenues).2.2 =
      ([], (exact_match cfg expenses revenues).2.1,
        (exact_match cfg expenses revenues).2.2) := by
  have hnone : ∀ r ∈ (exact_match cfg expenses revenues).2.2,
      exactPick cfg r
        (((exact_match cfg expenses revenues).2.1).filter
          (fun e => decide (e.originalIndex ∉ (∅ : Finset ℕ)))) = none := by
    intro r hr
    rw [filter_not_mem_empty]
    simp only [exact_match, runStage, List.mem_filter, decide_eq_true_eq] at hr
    obtain ⟨hrmem, hrnot⟩ := hr
    simp only [exactPick, Option.map_eq_none']
    apply List.find?_eq_none.mpr
    intro e he
    simp only [exact_match, runStage, List.mem_filter, decide_eq_true_eq] at he
    obtain ⟨hemem, henot⟩ := he
    have := stageGo_unmatched_exact cfg expenses revenues [] ∅ ∅ r hrmem hrnot
      e hemem henot
    simp [this]
  show runStage (exactPick cfg) _ _ = _
  rw [runStage, stageGo_none _ _ _ _ _ _ hnone]
  simp only []
  rw [filter_not_mem_empty, filter_not_mem_empty]

unseal Rat.add Rat.sub Rat.mul Rat.inv in
/-- C5: every group the Exact stage produces has kind exact, confidence 1.0
and exactly one expense passing the amount-tolerance plus
normalised-description test for its revenue; the chosen expense is always
the first qualifying expense of the available pool, with every earlier
pool entry failing the test; and Scenario A (revenue 100.00, Acme Invoice
123, against expense -100.00, acme invoice 123) yields exactly one group
with confidence 1.0 and residual 0.00. -/
theorem c5_exact_stage (cfg : MatcherConfig) (expenses revenues : List Transaction) :
    (∀ g ∈ (exact_match cfg expenses revenues).1,
      g.matchType = "exact" ∧ g.confidence = 1 ∧
      ∃ r e, g.revenue = some r ∧ g.expenses = [e] ∧ exactPred cfg r e = true)
    ∧ (∀ (r : Transaction) (avail : List Transaction) (g : MatchGroup),
        exactPick cfg r avail = some g →
        ∃ s t e, avail = s ++ e :: t ∧ g.expenses = [e] ∧
          exactPred cfg r e = true ∧ ∀ x ∈ s, exactPred cfg r x = false)
    ∧ exact_match defaultConfig [expSA] [revSA] = ([groupSA], [], []) := by
  refine ⟨?_, ?_, by decide⟩
  · intro g hg
    rcases stageGo_groups_mem (exactPick cfg) expenses revenues [] ∅ ∅ g hg with
      h | ⟨r, ce₀, hr, hp⟩
    · exact absurd h (List.not_mem_nil g)
    · simp only [exactPick] at hp
      cases hf : (expenses.filter
          (fun e => decide (e.originalIndex ∉ ce₀))).find?
          (fun e => exactPred cfg r e) with
      | none => rw [hf] at hp; simp at hp
      | some e =>
        rw [hf, Option.map_some', Option.some_inj] at hp
        subst hp
        exact ⟨rfl, rfl, r, e, rfl, rfl, List.find?_some hf⟩
  · intro r avail g hp
    simp only [exactPick] at hp
    cases hf : avail.find? (fun e => exactPred cfg r e) with
    | none => rw [hf] at hp; simp at hp
    | some e =>
      rw [hf, Option.map_some', Option.some_inj] at hp
      subst hp
      obtain ⟨s, t, rfl, hs, he⟩ := find?_eq_some_split hf
      exact ⟨s, t, e, rfl, rfl, he, hs⟩

unseal Rat.add Rat.sub Rat.mul Rat.inv in
/-- Witness for C5: concrete application to Scenario A, discharging the
hypotheses of the first-qualifying-expense characterisation. -/
theorem c5_exact_stage_witness :
    exactPick defaultConfig revSA [expSA] = some groupSA ∧
    ∃ s t e, [expSA] = s ++ e :: t ∧ groupSA.expenses = [e] ∧
      exactPred defaultConfig revSA e = true ∧
      ∀ x ∈ s, exactPred defaultConfig revSA x = false :=
  ⟨by decide,
    (c5_exact_stage defaultConfig [] []).2.1 revSA [expSA] groupSA (by decide)⟩

/-- C1: the ranked bounded search sorts the candidates stably by descending
quality score, returns the first single candidate within tolerance of the
target amount, only on failure returns the first qualifying combination in
generation order, where every attempted combination is drawn from the top
10 ranked candidates with size between 2 and 5, and returns the
no-solution value when neither search succeeds. -/
theorem c1_ranked_search (cfg : MatcherConfig) (revenue : Transaction)
    (pes : List ScoredExpense) :
    ((sortByDesc (fun pe => pe.score) pes).Perm pes ∧
      (sortByDesc (fun pe => pe.score) pes).Sorted (fun a b => b.score ≤ a.score))
    ∧ (∀ pe, (sortByDesc (fun pe => pe.score) pes).find?
          (fun pe => decide (|pe.expense.absAmount - revenue.absAmount| <
            cfg.balanceTolerance)) = some pe →
        find_best_expense_combination cfg revenue pes = some
          { matchType := "fuzzy_single", confidence := pe.score,
            revenue := some revenue, expenses := [pe.expense],
            balance := revenue.absAmount - pe.expense.absAmount })
    ∧ ((sortByDesc (fun pe => pe.score) pes).find?
          (fun pe => decide (|pe.expense.absAmount - revenue.absAmount| <
            cfg.balanceTolerance)) = none →
        (∀ combo,
          (comboList (sortByDesc (fun pe => pe.score) pes) pes.length).find?
            (fun combo => decide
              (|(combo.map (fun pe => pe.expense.absAmount)).sum -
                revenue.absAmount| < cfg.balanceTolerance)) = some combo →
          find_best_expense_combination cfg revenue pes = some
            { matchType := "fuzzy_multiple_" ++ toString combo.length,
              confidence :=
                (combo.map (fun pe => pe.score)).sum / (combo.length : ℚ),
              revenue := some revenue,
              expenses := combo.map (fun pe => pe.expense),
              balance := revenue.absAmount -
                (combo.map (fun pe => pe.expense.absAmount)).sum })
        ∧ ((comboList (sortByDesc (fun pe => pe.score) pes) pes.length).find?
            (fun combo => decide
              (|(combo.map (fun pe => pe.expense.absAmount)).sum -
                revenue.absAmount| < cfg.balanceTolerance)) = none →
          find_best_expense_combination cfg revenue pes = none))
    ∧ (∀ combo ∈ comboList (sortByDesc (fun pe => pe.score) pes) pes.length,
        List.Sublist combo ((sortByDesc (fun pe => pe.score) pes).take 10) ∧
        2 ≤ combo.length ∧ combo.length ≤ 5) := by
  refine ⟨⟨sortByDesc_perm _ pes, sortByDesc_sorted _ pes⟩, ?_, ?_, ?_⟩
  · intro pe hpe
    simp only [find_best_expense_combination, hpe]
  · intro hnone
    constructor
    · intro combo hcombo
      simp only [find_best_expense_combination, hnone, hcombo]
    · intro hcnone
      simp only [find_best_expense_combination, hnone, hcnone]
  · intro combo hc
    simp only [comboList, List.mem_flatMap] at hc
    obtain ⟨k, hk, hck⟩ := hc
    have hlen := length_of_mem_combosOf _ k combo hck
    simp only [comboSizes, List.mem_range'] at hk
    exact ⟨sublist_of_mem_combosOf _ k combo hck, by omega, by omega⟩

unseal Rat.add Rat.sub Rat.mul Rat.inv in
/-- Witness for C1: the single-candidate branch evaluated on a concrete
candidate whose amount matches the target. -/
theorem c1_ranked_search_witness :
    (sortByDesc (fun pe => pe.score) [peKW]).find?
        (fun pe => decide (|pe.expense.absAmount - revKW.absAmount| <
          defaultConfig.balanceTolerance)) = some peKW ∧
    find_best_expense_combination defaultConfig revKW [peKW] = some
      { matchType := "fuzzy_single", confidence := peKW.score,
        revenue := some revKW, expenses := [peKW.expense],
        balance := revKW.absAmount - peKW.expense.absAmount } :=
  ⟨by decide, (c1_ranked_search defaultConfig revKW [peKW]).2.1 peKW (by decide)⟩

/-- C6 (amended): every group the Keyword stage commits has match kind
fuzzy_single (one-expense solve) or fuzzy_multiple_n (n-expense solve,
2 <= n <= 5) -- not keyword -- and its confidence is the arithmetic mean of
the keyword-overlap ranking scores of the chosen expense subset. -/
theorem c6_keyword_confidence (cfg : MatcherConfig)
    (expenses revenues : List Transaction) (mk : ℕ) :
    ∀ g ∈ (keyword_match cfg expenses revenues mk).1,
      ∃ (r : Transaction) (chosen : List ScoredExpense),
        g.revenue = some r ∧ chosen ≠ [] ∧
        g.expenses = chosen.map (fun pe => pe.expense) ∧
        g.confidence = (chosen.map (fun pe => pe.score)).sum / (chosen.length : ℚ) ∧
        (∀ pe ∈ chosen, pe.score =
          keywordOverlapScore (extract_keywords cfg r.description)
            (extract_keywords cfg pe.expense.description)) ∧
        ((g.matchType = "fuzzy_single" ∧ chosen.length = 1) ∨
          (g.matchType = "fuzzy_multiple_" ++ toString chosen.length ∧
            2 ≤ chosen.length ∧ chosen.length ≤ 5)) := by
  intro g hg
  rcases stageGo_groups_mem (keywordPick cfg mk) expenses revenues [] ∅ ∅ g hg with
    h | ⟨r, ce₀, hr, hp⟩
  · exact absurd h (List.not_mem_nil g)
  · simp only [keywordPick] at hp
    split at hp
    · exact absurd hp (by simp)
    · split at hp
      · exact absurd hp (by simp)
      · obtain ⟨hrev, chosen, hne, hsub, hexp, hconf, _, hkind⟩ :=
          find_best_spec cfg r _ g hp
        refine ⟨r, chosen, hrev, hne, hexp, hconf, ?_, hkind⟩
        intro pe hpe
        have hmem := (sortByDesc_perm (fun pe : ScoredExpense => pe.score) _).mem_iff.mp
          (hsub.subset hpe)
        rcases List.mem_filterMap.mp hmem with ⟨a, _, hfa⟩
        split at hfa
        · rw [Option.some_inj] at hfa
          rw [← hfa]
        · exact absurd hfa (by simp)

unseal Rat.add Rat.sub Rat.mul Rat.inv in
/-- Witness for C6: the Keyword stage on Scenario B commits a two-expense
group whose confidence is the mean 1/2 of the two keyword-overlap
scores. -/
theorem c6_keyword_confidence_witness :
    groupSB ∈ (keyword_match defaultConfig [expSB1, expSB2] [revSB] 2).1 ∧
    ∃ (r : Transaction) (chosen : List ScoredExpense),
      groupSB.revenue = some r ∧ chosen ≠ [] ∧
      groupSB.expenses = chosen.map (fun pe => pe.expense) ∧
      groupSB.confidence =
        (chosen.map (fun pe => pe.score)).sum / (chosen.length : ℚ) ∧
      (∀ pe ∈ chosen, pe.score =
        keywordOverlapScore (extract_keywords defaultConfig r.description)
          (extract_keywords defaultConfig pe.expense.description)) ∧
      ((groupSB.matchType = "fuzzy_single" ∧ chosen.length = 1) ∨
        (groupSB.matchType = "fuzzy_multiple_" ++ toString chosen.length ∧
          2 ≤ chosen.length ∧ chosen.length ≤ 5)) :=
  ⟨by decide,
    c6_keyword_confidence defaultConfig [expSB1, expSB2] [revSB] 2 groupSB
      (by decide)⟩

unseal Rat.add Rat.sub Rat.mul Rat.inv in
/-- Counterexample for C6 as stated: the Keyword stage on a matching
revenue/expense pair commits a group whose kind string is fuzzy_single,
which is not keyword nor any size-suffixed variant of it. -/
theorem c6_keyword_kind_counterexample :
    (keyword_match defaultConfig [expKW] [revKW] 2).1 = [groupKW] ∧
    groupKW.matchType = "fuzzy_single" ∧
    groupKW.matchType ≠ "keyword" ∧
    ∀ s : String, groupKW.matchType ≠ "keyword" ++ s := by
  refine ⟨by decide, rfl, by decide, ?_⟩
  intro s h
  have hd := congrArg String.data h
  rw [String.data_append] at hd
  have h1 : "fuzzy_single".data = 'f' :: "uzzy_single".data := by decide
  have h2 : "keyword".data = 'k' :: "eyword".data := by decide
  rw [show groupKW.matchType = "fuzzy_single" from rfl, h1, h2, List.cons_append] at hd
  injection hd with hc _
  exact absurd hc (by decide)

theorem runStage_partition (pick : Transaction → List Transaction → Option MatchGroup)
    (es rs : List Transaction) (hpick : PickOK pick)
    (hnde : (es.map (fun e => e.originalIndex)).Nodup)
    (hndr : (rs.map (fun r => r.originalIndex)).Nodup) :
    StagePartition (runStage pick es rs) es rs := by
  refine ⟨runStage_exp_perm pick es rs hpick hnde,
    runStage_rev_perm pick es rs hpick hndr, ?_, ?_⟩
  · exact (runStage_exp_perm pick es rs hpick hnde).symm.nodup hnde
  · exact (runStage_rev_perm pick es rs hpick hndr).symm.nodup hndr

/-- C3: whenever the transaction pool has distinct original indices, each
stage of auto_match_all consumes a subset of its input pools: the
transactions referenced by the stage's groups together with the stage's
remaining pools are a permutation of (and hence partition) the stage's
input pools, for expenses and revenues alike, and the composition
partitions the original pools, so no transaction reappears once
consumed. -/
theorem c3_cascade_partition (fz : String → String → ℚ) (cfg : MatcherConfig)
    (df : List Transaction)
    (hnd : (df.map (fun t => t.originalIndex)).Nodup) :
    CascadePartition fz cfg df := by
  have hnde0 : ((df.filter (fun t => decide (t.transactionType = "expense"))).map
      (fun e => e.originalIndex)).Nodup :=
    List.Nodup.sublist (List.Sublist.map _ (List.filter_sublist df)) hnd
  have hndr0 : ((df.filter (fun t => decide (t.transactionType = "revenue"))).map
      (fun r => r.originalIndex)).Nodup :=
    List.Nodup.sublist (List.Sublist.map _ (List.filter_sublist df)) hnd
  simp only [CascadePartition]
  have hS1 := runStage_partition (exactPick cfg) _ _ (exactPick_ok cfg) hnde0 hndr0
  have hnde1 := List.Nodup.sublist
    (List.Sublist.map (fun e => e.originalIndex) (runStage_exp_sublist (exactPick cfg)
      (df.filter (fun t => decide (t.transactionType = "expense")))
      (df.filter (fun t => decide (t.transactionType = "revenue"))))) hnde0
  have hndr1 := List.Nodup.sublist
    (List.Sublist.map (fun r => r.originalIndex) (runStage_rev_sublist (exactPick cfg)
      (df.filter (fun t => decide (t.transactionType = "expense")))
      (df.filter (fun t => decide (t.transactionType = "revenue"))))) hndr0
  have hS2 := runStage_partition (keywordPick cfg 2) _ _ (keywordPick_ok cfg 2)
    hnde1 hndr1
  have hnde2 := List.Nodup.sublist
    (List.Sublist.map (fun e => e.originalIndex)
      (runStage_exp_sublist (keywordPick cfg 2)
        (runStage (exactPick cfg)
          (df.filter (fun t => decide (t.transactionType = "expense")))
          (df.filter (fun t => decide (t.transactionType = "revenue")))).2.1
        (runStage (exactPick cfg)
          (df.filter (fun t => decide (t.transactionType = "expense")))
          (df.filter (fun t => decide (t.transactionType = "revenue")))).2.2)) hnde1
  have hndr2 := List.Nodup.sublist
    (List.Sublist.map (fun r => r.originalIndex)
      (runStage_rev_sublist (keywordPick cfg 2)
        (runStage (exactPick cfg)
          (df.filter (fun t => decide (t.transactionType = "expense")))
          (df.filter (fun t => decide (t.transactionType = "revenue")))).2.1
        (runStage (exactPick cfg)
          (df.filter (fun t => decide (t.transactionType = "expense")))
          (df.filter (fun t => decide (t.transactionType = "revenue")))).2.2)) hndr1
  have hS3 := runStage_partition (fuzzyPick fz cfg) _ _ (fuzzyPick_ok fz cfg)
    hnde2 hndr2
  refine ⟨rfl, hS1, hS2, hS3, ?_, ?_⟩
  · rw [List.flatMap_append, List.flatMap_append, List.append_assoc,
      List.append_assoc]
    exact ((List.Perm.append_left _
      ((List.Perm.append_left _ hS3.1).trans hS2.1)).trans hS1.1)
  · rw [List.map_append, List.map_append, List.append_assoc, List.append_assoc]
    exact ((List.Perm.append_left _
      ((List.Perm.append_left _ hS3.2.1).trans hS2.2.1)).trans hS1.2.1)

unseal Rat.add Rat.sub Rat.mul Rat.inv in
/-- Witness for C3: the partition statement applied to the concrete
two-transaction pool of Scenario A. -/
theorem c3_cascade_partition_witness :
    (([expSA, revSA] : List Transaction).map (fun t => t.originalIndex)).Nodup ∧
    CascadePartition fzZero defaultConfig [expSA, revSA] :=
  ⟨by decide, c3_cascade_partition fzZero defaultConfig [expSA, revSA] (by decide)⟩

/-- C9: find_potential_matches scores every expense with the weighted
composite 0.4 fuzzy + 0.4 keyword-overlap + 0.2 amount-closeness, where
amount-closeness is max(0, 1 - |difference|/revenue_amount) and 0 when the
revenue amount is 0, and returns the first 5 of the stable descending sort
by composite score (ties stay in input order); pool inputs are consumed
but never mutated (the function is pure in this embedding). -/
theorem c9_review_ranker (fz : String → String → ℚ) (cfg : MatcherConfig)
    (revenue : Transaction) (expenses : List Transaction) :
    find_potential_matches fz cfg revenue expenses 5 =
      (sortByDesc (fun p => p.combinedScore)
        (expenses.map (scoreExpense fz cfg revenue))).take 5
    ∧ (sortByDesc (fun p => p.combinedScore)
        (expenses.map (scoreExpense fz cfg revenue))).Perm
        (expenses.map (scoreExpense fz cfg revenue))
    ∧ (sortByDesc (fun p => p.combinedScore)
        (expenses.map (scoreExpense fz cfg revenue))).Sorted
        (fun a b => b.combinedScore ≤ a.combinedScore)
    ∧ (∀ q : ℚ, (sortByDesc (fun p => p.combinedScore)
          (expenses.map (scoreExpense fz cfg revenue))).filter
            (fun p => decide (p.combinedScore = q)) =
        (expenses.map (scoreExpense fz cfg revenue)).filter
          (fun p => decide (p.combinedScore = q)))
    ∧ (∀ p ∈ expenses.map (scoreExpense fz cfg revenue),
        p.combinedScore = p.fuzzyScore * (2/5) + p.keywordScore * (2/5) +
          p.amountScore * (1/5) ∧
        p.amountScore = (if 0 < revenue.absAmount then
          max 0 (1 - |p.expense.absAmount - revenue.absAmount| /
            revenue.absAmount)
          else 0) ∧
        p.fuzzyScore = calculate_similarity fz revenue.description
          p.expense.description)
    ∧ (find_potential_matches fz cfg revenue expenses 5).length ≤ 5 := by
  refine ⟨rfl, sortByDesc_perm _ _, sortByDesc_sorted _ _,
    fun q => sortByDesc_stable _ q _, ?_, ?_⟩
  · intro p hp
    rcases List.mem_map.mp hp with ⟨e, _, rfl⟩
    exact ⟨rfl, rfl, rfl⟩
  · rw [show find_potential_matches fz cfg revenue expenses 5 =
      (sortByDesc (fun p => p.combinedScore)
        (expenses.map (scoreExpense fz cfg revenue))).take 5 from rfl,
      List.length_take]
    exact min_le_left _ _

/-- Witness for C9: the composite-score characterisation applied to a
concrete scored candidate. -/
theorem c9_review_ranker_witness :
    (scoreExpense fzZero defaultConfig revSA expSA).combinedScore =
      (scoreExpense fzZero defaultConfig revSA expSA).fuzzyScore * (2/5) +
        (scoreExpense fzZero defaultConfig revSA expSA).keywordScore * (2/5) +
        (scoreExpense fzZero defaultConfig revSA expSA).amountScore * (1/5) ∧
    (scoreExpense fzZero defaultConfig revSA expSA).amountScore =
      (if 0 < revSA.absAmount then
        max 0 (1 - |(scoreExpense fzZero defaultConfig revSA expSA).expense.absAmount -
          revSA.absAmount| / revSA.absAmount)
      else 0) :=
  ⟨((c9_review_ranker fzZero defaultConfig revSA [expSA]).2.2.2.2.1
      (scoreExpense fzZero defaultConfig revSA expSA)
      (List.mem_map_of_mem _ (List.mem_singleton.mpr rfl))).1,
    ((c9_review_ranker fzZero defaultConfig revSA [expSA]).2.2.2.2.1
      (scoreExpense fzZero defaultConfig revSA expSA)
      (List.mem_map_of_mem _ (List.mem_singleton.mpr rfl))).2.1⟩

/-- C4: once the manual-confirmation request passes the input guard and the
revenue lookup, the operation is all-or-nothing: if the constructed manual
group fails balance validation the session state is returned unchanged
with the validation reason, and on success the group of kind manual with
confidence 1.0 is appended, the involved transactions leave the unmatched
pools, and the review queue is regenerated from the new pools. -/
theorem c4_confirm_match_transactional (fz : String → String → ℚ)
    (cfg : MatcherConfig) (st : AppState) (req : ConfirmRequest)
    (ridx : ℕ) (revenue : Transaction)
    (h1 : req.revenueIndex = some ridx) (h2 : ridx ≠ 0)
    (h3 : req.expenseIndices ≠ [])
    (h4 : st.unmatchedRevenues.find?
      (fun t => decide (t.originalIndex = ridx)) = some revenue) :
    ((validate_match cfg (manualGroup st req revenue)).1 = false →
      confirm_match fz cfg st req =
        (st, ConfirmResponse.invalid
          (validate_match cfg (manualGroup st req revenue)).2)) ∧
    ((validate_match cfg (manualGroup st req revenue)).1 = true →
      confirm_match fz cfg st req =
        (confirmSuccessState fz cfg st req ridx revenue,
          ConfirmResponse.success
            (confirmSuccessState fz cfg st req ridx revenue).reviewItems.length)) := by
  have hguard : ¬ (ridx = 0 ∨ req.expenseIndices = []) := by
    intro h
    rcases h with h | h
    · exact h2 h
    · exact h3 h
  constructor
  · intro hv
    simp only [manualGroup] at hv
    simp only [confirm_match, h1, h4, manualGroup]
    rw [if_neg hguard, if_neg (by simp [hv])]
  · intro hv
    simp only [manualGroup] at hv
    simp only [confirm_match, h1, h4, confirmSuccessState, manualGroup]
    rw [if_neg hguard, if_pos hv]

unseal Rat.add Rat.sub Rat.mul Rat.inv in
/-- Witness for C4: Scenario D, where the selected expense is 0.02 short of
the revenue against a 0.01 tolerance: validation fails with the unbalanced
reason carrying residual 0.02 and the state is unchanged. -/
theorem c4_confirm_match_witness :
    (validate_match defaultConfig (manualGroup stateSD reqSD revSD)).1 = false ∧
    confirm_match fzZero defaultConfig stateSD reqSD =
      (stateSD, ConfirmResponse.invalid
        (validate_match defaultConfig (manualGroup stateSD reqSD revSD)).2) ∧
    (validate_match defaultConfig (manualGroup stateSD reqSD revSD)).2 =
      ValidationMessage.unbalanced (1/50) :=
  ⟨by decide,
    (c4_confirm_match_transactional fzZero defaultConfig stateSD reqSD 1 revSD
      rfl (by decide) (by decide) (by decide)).1 (by decide),
    by decide⟩

/-- C10: a confirm_match request whose revenue id is 0 (falsy in the
source's truthiness guard) or whose expense-id list is empty is rejected
as invalid input with the state unchanged, before any pool lookup or
validation, even when an unmatched revenue with original index 0 exists;
consequently any successful confirmation names a nonzero revenue id, so
the transaction at original position 0 can never be the revenue of a
committed manual match. -/
theorem c10_confirm_zero_index (fz : String → String → ℚ) (cfg : MatcherConfig)
    (st : AppState) (req : ConfirmRequest) :
    ((req.revenueIndex = some 0 ∨ req.expenseIndices = []) →
      confirm_match fz cfg st req = (st, ConfirmResponse.invalidData)) ∧
    (∀ st' n, confirm_match fz cfg st req = (st', ConfirmResponse.success n) →
      ∃ (ridx : ℕ) (revenue : Transaction),
        req.revenueIndex = some ridx ∧ ridx ≠ 0 ∧
        st.unmatchedRevenues.find? (fun t => decide (t.originalIndex = ridx)) =
          some revenue ∧
        revenue.originalIndex = ridx ∧ revenue.originalIndex ≠ 0 ∧
        st'.matchList = st.matchList ++ [manualGroup st req revenue]) := by
  constructor
  · intro h
    cases hri : req.revenueIndex with
    | none => simp [confirm_match, hri]
    | some ridx =>
      rcases h with h | h
      · rw [hri, Option.some_inj] at h
        subst h
        simp [confirm_match, hri]
      · simp [confirm_match, hri, h]
  · intro st' n hc
    cases hri : req.revenueIndex with
    | none => simp [confirm_match, hri] at hc
    | some ridx =>
      by_cases h0 : ridx = 0 ∨ req.expenseIndices = []
      · simp [confirm_match, hri, h0] at hc
      · cases hf : st.unmatchedRevenues.find?
            (fun t => decide (t.originalIndex = ridx)) with
        | none =>
          simp only [confirm_match, hri, hf] at hc
          rw [if_neg h0] at hc
          simp at hc
        | some revenue =>
          simp only [confirm_match, hri, hf] at hc
          rw [if_neg h0] at hc
          have hidx : revenue.originalIndex = ridx := by
            have := List.find?_some hf
            simpa using this
          split at hc
          · rw [Prod.mk.injEq] at hc
            obtain ⟨hst, _⟩ := hc
            refine ⟨ridx, revenue, rfl, fun h => h0 (Or.inl h), hf, hidx,
              by rw [hidx]; exact fun h => h0 (Or.inl h), ?_⟩
            rw [← hst]
            simp [manualGroup]
          · simp at hc

/-- Witness for C10: the guard fires on a request naming revenue id 0 even
though stateZero holds an unmatched revenue with original index 0. -/
theorem c10_confirm_zero_index_witness :
    ((⟨some 0, [5]⟩ : ConfirmRequest).revenueIndex = some 0 ∨
      (⟨some 0, [5]⟩ : ConfirmRequest).expenseIndices = []) ∧
    (∃ t ∈ stateZero.unmatchedRevenues, t.originalIndex = 0) ∧
    confirm_match fzZero defaultConfig stateZero ⟨some 0, [5]⟩ =
      (stateZero, ConfirmResponse.invalidData) :=
  ⟨Or.inl rfl, ⟨⟨0, 10, 10, "a", "revenue", "unmatched", none, none⟩, by decide⟩,
    (c10_confirm_zero_index fzZero defaultConfig stateZero ⟨some 0, [5]⟩).1
      (Or.inl rfl)⟩

/-- C2 (amended): for every target whose rounded cent value is at least 1,
if some subset of the candidates' rounded cent values sums exactly to the
target's cents then find_expense_combinations_dp returns a nonempty subset
whose cent values sum exactly to the target's cents; when no subset
reaches the target cents it returns none; and the outcome depends only on
the rounded integer cent values of the target and the candidates. -/
theorem c2_dp_exact_subset (target : ℚ) (expenses : List ExpenseRec) :
    ((1 ≤ (pyRound (target * 100)).toNat →
      (∃ sub, List.Sublist sub expenses ∧
        (sub.map centsOf).sum = (pyRound (target * 100)).toNat) →
      ∃ res, find_expense_combinations_dp target expenses = some res ∧
        res ≠ [] ∧
        (res.map centsOf).sum = (pyRound (target * 100)).toNat))
    ∧ ((¬ ∃ sub, List.Sublist sub expenses ∧
        (sub.map centsOf).sum = (pyRound (target * 100)).toNat) →
      find_expense_combinations_dp target expenses = none)
    ∧ (∀ (target₂ : ℚ) (expenses₂ : List ExpenseRec),
        pyRound (target * 100) = pyRound (target₂ * 100) →
        expenses.map centsOf = expenses₂.map centsOf →
        (find_expense_combinations_dp target expenses).map
          (fun l => l.map centsOf) =
        (find_expense_combinations_dp target₂ expenses₂).map
          (fun l => l.map centsOf)) := by
  refine ⟨?_, ?_, ?_⟩
  · rintro htc ⟨sub, hsub, hsum⟩
    have hreach : dpReach centsOf expenses.reverse
        (pyRound (target * 100)).toNat = true := by
      apply (dpReach_iff centsOf expenses.reverse _).mpr
      refine ⟨sub.reverse, List.reverse_sublist.mpr hsub, ?_⟩
      rw [List.map_reverse, List.sum_reverse]
      exact hsum
    obtain ⟨hres_sub, hres_sum⟩ := dpBacktrack_spec centsOf expenses.reverse _ hreach
    have hne : dpBacktrack centsOf expenses.reverse
        (pyRound (target * 100)).toNat ≠ [] := by
      intro h
      rw [h] at hres_sum
      simp only [List.map_nil, List.sum_nil] at hres_sum
      omega
    refine ⟨dpBacktrack centsOf expenses.reverse (pyRound (target * 100)).toNat,
      ?_, hne, hres_sum⟩
    simp [find_expense_combinations_dp, hreach, hne]
  · intro hno
    have hreach : dpReach centsOf expenses.reverse
        (pyRound (target * 100)).toNat = false := by
      cases hb : dpReach centsOf expenses.reverse (pyRound (target * 100)).toNat with
      | false => rfl
      | true =>
        obtain ⟨sub, hs, hsum⟩ := (dpReach_iff centsOf expenses.reverse _).mp hb
        exfalso
        apply hno
        refine ⟨sub.reverse, ?_, ?_⟩
        · have h2 : List.Sublist sub.reverse expenses.reverse.reverse :=
            List.reverse_sublist.mpr hs
          rw [List.reverse_reverse] at h2
          exact h2
        · rw [List.map_reverse, List.sum_reverse]
          exact hsum
    simp [find_expense_combinations_dp, hreach]
  · intro target₂ expenses₂ ht he
    have hmapeq : expenses.reverse.map centsOf = expenses₂.reverse.map centsOf := by
      rw [List.map_reverse, List.map_reverse, he]
    have h1 := dpReach_congr centsOf centsOf expenses.reverse expenses₂.reverse hmapeq
    have h2 := dpBacktrack_congr centsOf centsOf expenses.reverse expenses₂.reverse
      hmapeq ((pyRound (target₂ * 100)).toNat)
    simp only [find_expense_combinations_dp, ht, h1]
    by_cases hr : dpReach centsOf expenses₂.reverse
        (pyRound (target₂ * 100)).toNat = true
    · by_cases hres : dpBacktrack centsOf expenses₂.reverse
          (pyRound (target₂ * 100)).toNat = []
      · have hres1 : dpBacktrack centsOf expenses.reverse
            (pyRound (target₂ * 100)).toNat = [] := by
          rw [hres, List.map_nil] at h2
          exact List.map_eq_nil_iff.mp h2
        simp [hr, hres, hres1]
      · have hne1 : dpBacktrack centsOf expenses.reverse
            (pyRound (target₂ * 100)).toNat ≠ [] := by
          intro h
          rw [h, List.map_nil] at h2
          exact hres (List.map_eq_nil_iff.mp h2.symm)
        simp [hr, hres, hne1, h2]
    · have hr' : dpReach centsOf expenses₂.reverse
          (pyRound (target₂ * 100)).toNat = false := Bool.eq_false_iff.mpr hr
      simp [hr']

unseal Rat.add Rat.sub Rat.mul Rat.inv in
/-- Counterexample for C2 as stated: the target 0.004 is positive, and the
single candidate of 0.004 rounds to the same cent value 0 as the target,
so a cents-exact subset exists, yet find_expense_combinations_dp returns
none (the backtracking result is empty and is reported as no solution). -/
theorem c2_dp_counterexample :
    0 < dpTarget ∧
    List.Sublist [dpExp] [dpExp] ∧
    (([dpExp].map centsOf).sum = (pyRound (dpTarget * 100)).toNat) ∧
    find_expense_combinations_dp dpTarget [dpExp] = none :=
  ⟨by decide, List.Sublist.refl _, by decide, by decide⟩

unseal Rat.add Rat.sub Rat.mul Rat.inv in
/-- Witness for C2: the amended completeness statement applied to the
target 1.50 with candidate expenses -1.00 and -0.50. -/
theorem c2_dp_exact_subset_witness :
    1 ≤ (pyRound (((3:ℚ)/2) * 100)).toNat ∧
    ∃ res, find_expense_combinations_dp ((3:ℚ)/2)
        [⟨-1⟩, ⟨-(1:ℚ)/2⟩] = some res ∧ res ≠ [] ∧
      (res.map centsOf).sum = (pyRound (((3:ℚ)/2) * 100)).toNat :=
  ⟨by decide,
    (c2_dp_exact_subset ((3:ℚ)/2) [⟨-1⟩, ⟨-(1:ℚ)/2⟩]).1 (by decide)
      ⟨[⟨-1⟩, ⟨-(1:ℚ)/2⟩], List.Sublist.refl _, by decide⟩⟩
